import Mathlib

/-!
Verification of the slash-command library's command dispatch and
validation pipeline (sources: SlashCommandBase.ts, SlashasaurusClient.ts).

The TypeScript sources are shallowly embedded: JS `Map` objects become
association lists with insert-or-replace semantics, thrown exceptions
become `Except String`, and side effects (replies, autocomplete responses,
validator/transformer invocations) are recorded in explicit traces.
-/

set_option maxHeartbeats 1000000

/-- Association list standing in for a JS `Map` with string keys. -/
def MapList (α : Type) : Type := List (String × α)

/-- Empty map, `new Map()`. -/
def mapEmpty {α : Type} : MapList α := []

/-- JS `Map.prototype.set`: insert or replace the binding for a key. -/
def mapSet {α : Type} (m : MapList α) (k : String) (v : α) : MapList α :=
  match m with
  | [] => [(k, v)]
  | (k', v') :: rest =>
    if k' = k then (k, v) :: rest else (k', v') :: mapSet rest k v

/-- JS `Map.prototype.get`: the value bound to a key, if any. -/
def mapGet {α : Type} (m : MapList α) (k : String) : Option α :=
  match m with
  | [] => none
  | (k', v) :: rest => if k' = k then some v else mapGet rest k

/-- JS `Map.prototype.has`. -/
def mapHas {α : Type} (m : MapList α) (k : String) : Bool :=
  (mapGet m k).isSome

/-- Semantic option types from `ApplicationCommandOptionData['type']`
(the nine cases dispatched on in `getDataForType`). -/
inductive OptionType where
  | string
  | integer
  | boolean
  | user
  | channel
  | role
  | mentionable
  | number
  | attachment
deriving DecidableEq, Repr

/-- Raw option values handed back by the platform's typed getters.
String, integer and boolean payloads are kept; user/channel/role/
mentionable/attachment values are opaque platform references modelled by
an id, and NUMBER payloads (floating point) are kept as their raw text. -/
inductive DVal where
  | str (s : String)
  | int (n : Int)
  | bool (b : Bool)
  | ref (id : String)
  | num (raw : String)
deriving DecidableEq, Repr

/-- Whether the inbound event is a genuine command submission
(`CommandInteraction`) or an autocomplete probe
(`AutocompleteInteraction`). -/
inductive InteractionKind where
  | command
  | autocomplete
deriving DecidableEq, Repr

/-- An inbound interaction: its kind plus the option values it carries
(name-keyed; a name missing from `opts` is an absent option). -/
structure Interaction where
  kind : InteractionKind
  opts : MapList DVal

/-- Modelled from the spec: the platform collaborator's typed option
getters (`interaction.options.getString` and friends, discord.js code not
in this repository). Each returns the option's value, `null` (here
`none`) when the option is absent, and throws when the option is absent
but `required` is set — per the spec, an absent required value is "a
structural fetch-time error from the collaborator". All nine getters are
modelled uniformly over one option store; the USER branch's
`getMember(...) ?? getUser(...)` chain collapses to a single lookup. -/
def Interaction.getOpt (i : Interaction) (name : String) (required : Bool) :
    Except String (Option DVal) :=
  match mapGet i.opts name with
  | some v => .ok (some v)
  | none =>
    if required then .error ("Required option " ++ name ++ " was not supplied")
    else .ok none

/-- Result of running a user-supplied validator, covering every outcome of
`await this.validatorsMap.get(option.name)!(interaction, value)`: a normal
return of a boolean or a string, a thrown `ValidationError` (the class in
`CustomErrors.ts`, modelled by its message), or any other thrown error. -/
inductive ValidateResult where
  | retBool (b : Bool)
  | retStr (s : String)
  | throwValidation (msg : String)
  | throwOther (err : String)
deriving DecidableEq, Repr

/-- A per-option validator, `(interaction, value) => boolean | string`. -/
def Validator : Type := Interaction → DVal → ValidateResult

/-- A per-option transformer, `(value) => any`. -/
def Transformer : Type := DVal → DVal

/-- One declared option: name, semantic type, required flag, and the
optional `validator` / `transformer` members probed with `'validator' in
option` in the `SlashCommand` constructor. -/
structure OptionDescr where
  name : String
  type : OptionType
  required : Bool
  validator : Option Validator
  transformer : Option Transformer

/-- `getDataForType`: dispatch on the option type to the matching typed
getter of the interaction. -/
def getDataForType (i : Interaction) (type : OptionType) (name : String)
    (required : Bool) : Except String (Option DVal) :=
  match type with
  | .string => i.getOpt name required
  | .integer => i.getOpt name required
  | .boolean => i.getOpt name required
  | .user => i.getOpt name required
  | .channel => i.getOpt name required
  | .role => i.getOpt name required
  | .mentionable => i.getOpt name required
  | .number => i.getOpt name required
  | .attachment => i.getOpt name required

/-- Observable invocation events of the validation loop: a validator or a
transformer being called for a named option. -/
inductive VEvent where
  | validatorCall (name : String)
  | transformerCall (name : String)
deriving DecidableEq, Repr

/-- Whether an event is a validator invocation. -/
def VEvent.isValidatorCall : VEvent → Bool
  | .validatorCall _ => true
  | .transformerCall _ => false

/-- The mutable locals of `validateAndTransformOptions`: the `errors`
array, the `values` record (a `none` entry is a JS `null`), plus the
recorded invocation trace. -/
structure LoopState where
  errors : List String
  values : MapList (Option DVal)
  trace : List VEvent

/-- The `values[option.name] = value` tail of the loop body: apply the
transformer when one is registered (recording its invocation) and store
the result. -/
def assignValue (tmap : MapList Transformer) (st : LoopState)
    (name : String) (v : DVal) : LoopState :=
  match mapGet tmap name with
  | some t =>
    { st with
      trace := st.trace ++ [.transformerCall name]
      values := mapSet st.values name (some (t v)) }
  | none => { st with values := mapSet st.values name (some v) }

/-- One iteration of the `for (const option of this.commandInfo.options)`
loop in `validateAndTransformOptions`. Returns the updated state and
`some e` when the iteration throws `e` (aborting the whole pass).
Mirrors the source exactly: a string result pushes an error and sets
`isValid = false`; a thrown `ValidationError` pushes its message but does
NOT set `isValid = false`, so the transformer/assignment still run; any
other thrown error propagates. -/
def processOption (vmap : MapList Validator) (tmap : MapList Transformer)
    (i : Interaction) (skipRequiredCheck : Bool) (st : LoopState)
    (opt : OptionDescr) : LoopState × Option String :=
  match getDataForType i opt.type opt.name
      (if skipRequiredCheck then false else opt.required) with
  | .error e => (st, some e)
  | .ok none =>
    -- value === null: assign early and continue
    ({ st with values := mapSet st.values opt.name none }, none)
  | .ok (some v) =>
    match mapGet vmap opt.name, i.kind with
    | some validator, .command =>
      let st1 : LoopState :=
        { st with trace := st.trace ++ [.validatorCall opt.name] }
      match validator i v with
      | .retBool _ => (assignValue tmap st1 opt.name v, none)
      | .retStr s =>
        -- typeof validateResult === 'string': collect, isValid = false
        ({ st1 with errors := st1.errors ++ [s] }, none)
      | .throwValidation m =>
        -- caught ValidationError: message collected, isValid stays true
        (assignValue tmap { st1 with errors := st1.errors ++ [m] } opt.name v,
          none)
      | .throwOther e => (st1, some e)
    | _, _ => (assignValue tmap st opt.name v, none)

/-- The whole option loop: iterate `processOption` until done or until an
iteration throws. -/
def vtoLoop (vmap : MapList Validator) (tmap : MapList Transformer)
    (i : Interaction) (skipRequiredCheck : Bool) :
    List OptionDescr → LoopState → LoopState × Option String
  | [], st => (st, none)
  | opt :: rest, st =>
    match processOption vmap tmap i skipRequiredCheck st opt with
    | (st1, none) => vtoLoop vmap tmap i skipRequiredCheck rest st1
    | (st1, some e) => (st1, some e)

/-- Result of `validateAndTransformOptions`: either a thrown error, or the
errors array (when nonempty), or the populated values record; paired with
the invocation trace. -/
structure VTOut where
  res : Except String (List String ⊕ MapList (Option DVal))
  trace : List VEvent

/-- Observable actions performed by handlers and by the dispatcher: an
interaction reply (with its ephemeral flag; the client sends `flags:
1 << 6`, the EPHEMERAL bitflag) or an autocomplete response with its
choice list (name/value pairs). -/
inductive HAction where
  | reply (content : String) (ephemeral : Bool)
  | respond (choices : List (String × String))
deriving DecidableEq, Repr

/-- Shape of a command `run` handler (the `client` argument carries no
information the model tracks and is dropped). -/
def RunHandler : Type := Interaction → MapList (Option DVal) → List HAction

/-- Shape of a command-level `autocomplete` handler: interaction, focused
option name, focused value, options object. -/
def AutocompleteHandler : Type :=
  Interaction → String → DVal → MapList (Option DVal) → List HAction

/-- Handlers bundle passed to the `SlashCommand` constructor, at the
JavaScript level: the TS type requires `run`, but nothing at runtime
stops a caller from omitting it, and the constructor assigns
`this.run = handlers.run` unconditionally. `autocomplete` is only
installed when the key is present (`'autocomplete' in handlers`). -/
structure Handlers where
  run : Option RunHandler
  autocomplete : Option AutocompleteHandler

/-- The general info for a chat command (`ChatCommandOptions`); the
localization and permission fields feed only the out-of-scope wire
builders and are not tracked beyond the description. -/
structure ChatCommandOptions where
  name : String
  description : String
  options : List OptionDescr

/-- The `SlashCommand` class after construction: command info, the three
per-option maps the constructor builds, and the effective `run` /
`autocomplete` members (see `mkSlashCommand`). -/
structure SlashCommand where
  commandInfo : ChatCommandOptions
  validatorsMap : MapList Validator
  transformersMap : MapList Transformer
  autocompleteMap : MapList AutocompleteHandler
  run : Option RunHandler
  autocomplete : AutocompleteHandler

/-- The default `run` method body on the `SlashCommand` class: reply
ephemerally that the command is not implemented. -/
def SlashCommand.defaultRun : RunHandler :=
  fun _ _ => [.reply "This command is not implemented yet" true]

/-- The default `autocomplete` method body on the `SlashCommand` class:
respond with a single placeholder choice. -/
def SlashCommand.defaultAutocomplete : AutocompleteHandler :=
  fun _ _ _ _ => [.respond [("This interaction isn't implemented yet", "error")]]

/-- The `validatorsMap` built by the constructor: for each option with a
`validator` member, `this.validatorsMap.set(option.name, option.validator)`. -/
def buildValidatorsMap (opts : List OptionDescr) : MapList Validator :=
  opts.foldl
    (fun m o =>
      match o.validator with
      | some v => mapSet m o.name v
      | none => m)
    mapEmpty

/-- The `transformersMap` built by the constructor. -/
def buildTransformersMap (opts : List OptionDescr) : MapList Transformer :=
  opts.foldl
    (fun m o =>
      match o.transformer with
      | some t => mapSet m o.name t
      | none => m)
    mapEmpty

/-- The `SlashCommand` constructor. `this.run = handlers.run` is
unconditional, so omitting `run` leaves the instance with an own `run`
property of `undefined` that shadows the default method; `autocomplete`
is replaced only when present in `handlers`. The per-option
`onAutocomplete` members feed `autocompleteMap`, which no claim uses, so
options do not carry them and that map stays empty here. -/
def mkSlashCommand (info : ChatCommandOptions) (handlers : Handlers) :
    SlashCommand :=
  { commandInfo := info
    validatorsMap := buildValidatorsMap info.options
    transformersMap := buildTransformersMap info.options
    autocompleteMap := mapEmpty
    run := handlers.run
    autocomplete :=
      match handlers.autocomplete with
      | some f => f
      | none => SlashCommand.defaultAutocomplete }

/-- `SlashCommand.validateAndTransformOptions(interaction,
skipRequiredCheck = false)`: run the option loop from empty accumulators;
return the errors array when any errors were collected, the values record
otherwise, and propagate a thrown error. -/
def validateAndTransformOptions (cmd : SlashCommand) (i : Interaction)
    (skipRequiredCheck : Bool := false) : VTOut :=
  match vtoLoop cmd.validatorsMap cmd.transformersMap i skipRequiredCheck
      cmd.commandInfo.options ⟨[], mapEmpty, []⟩ with
  | (st, some e) => ⟨.error e, st.trace⟩
  | (st, none) =>
    if st.errors.length > 0 then ⟨.ok (.inl st.errors), st.trace⟩
    else ⟨.ok (.inr st.values), st.trace⟩


/-- Middleware over chat-command handlers; modelled from the spec:
`MiddlewarePipeline.ts` is not among the sources. Per spec section 4.3, a
middleware receives the next function in the chain and returns a
replacement with the same signature. -/
def Middleware : Type := RunHandler → RunHandler

/-- Modelled from the spec: `Pipeline.execute` folds the registered
middleware around the terminal handler so that the middleware registered
first wraps outermost and runs first. -/
def pipelineExecute (mws : List Middleware) (terminal : RunHandler) :
    RunHandler :=
  mws.foldr (fun mw acc => mw acc) terminal

/-- Signature of the caller-supplied `storePageState(messageId, pageId,
state, messageData)` persistence function. -/
def StorePageStateFn : Type :=
  String → String → String → String → Except String Unit

/-- The record returned by `getPageState`. -/
structure PageStateData where
  pageId : String
  stateString : String
  messageData : String
deriving DecidableEq, Repr

/-- Signature of the caller-supplied `getPageState(messageId)` function. -/
def GetPageStateFn : Type := String → Except String PageStateData

/-- The message thrown by both page-persistence defaults. -/
def missingPagePersistenceMsg : String :=
  "You must implement storePageState and getPageState in order to use pages"

/-- `defaultPageStore`: the stand-in installed when the caller supplies no
`storePageState`; it throws unconditionally. -/
def defaultPageStore : StorePageStateFn :=
  fun _ _ _ _ => .error missingPagePersistenceMsg

/-- `defaultPageGet`: the stand-in installed when the caller supplies no
`getPageState`; it throws unconditionally (the `return` after the `throw`
in the source is dead code). -/
def defaultPageGet : GetPageStateFn :=
  fun _ => .error missingPagePersistenceMsg

/-- A user-context-menu command: its registered name and its handler
(opaque, identified by a number so that distinct handlers are
distinguishable). `ContextMenuBase.ts` is not among the sources; the
shape is modelled from the spec's "named, typed handler bundle". -/
structure UserCommand where
  name : String
  run : Nat
deriving DecidableEq, Repr

/-- A message-context-menu command, same shape as `UserCommand`. -/
structure MessageCommand where
  name : String
  run : Nat
deriving DecidableEq, Repr

/-- The mutable registries and configuration of `SlashasaurusClient`. -/
structure ClientState where
  commandMap : MapList SlashCommand
  userContextMenuMap : MapList UserCommand
  messageContextMenuMap : MapList MessageCommand
  chatCommandMiddleware : List Middleware
  storePageState : StorePageStateFn
  getPageState : GetPageStateFn

/-- The constructor options relevant to the modelled behavior. -/
structure ClientOptions where
  storePageState : Option StorePageStateFn
  getPageState : Option GetPageStateFn

/-- The `SlashasaurusClient` constructor: fresh empty registries; the
page-persistence functions fall back to the throwing defaults via
`options.storePageState ?? defaultPageStore`. -/
def mkClient (options : ClientOptions) : ClientState :=
  { commandMap := mapEmpty
    userContextMenuMap := mapEmpty
    messageContextMenuMap := mapEmpty
    chatCommandMiddleware := []
    storePageState := options.storePageState.getD defaultPageStore
    getPageState := options.getPageState.getD defaultPageGet }

/-- `SlashasaurusClient.handleCommand(name, interaction)`. Returns the
JS-level return value (`none` models the bare `return;` on the
validation-error path, i.e. `undefined`) together with the actions
performed. The client passes `this.connector` in the position the base
class declares as `skipRequiredCheck`; an object is truthy, so the call
runs with the required checks skipped. If `command.run` is `undefined`
(constructed without a `run` handler), handing it to the middleware
pipeline throws a TypeError. -/
def handleCommand (client : ClientState) (name : String) (i : Interaction) :
    Except String (Option Bool) × List HAction :=
  match mapGet client.commandMap name with
  | none => (.ok (some false), [])
  | some cmd =>
    match validateAndTransformOptions cmd i true with
    | ⟨.error e, _⟩ => (.error e, [])
    | ⟨.ok (.inl errs), _⟩ =>
      (.ok none, [.reply (String.intercalate "\n" errs) true])
    | ⟨.ok (.inr vals), _⟩ =>
      match cmd.run with
      | none => (.error "TypeError: command.run is not a function", [])
      | some run =>
        (.ok (some true),
          pipelineExecute client.chatCommandMiddleware run i vals)

/-- Suffix test on the character lists of two strings. -/
def strEndsWith (s suffix : String) : Bool :=
  suffix.data.isSuffixOf s.data

/-- The `JSFileRegex` filter `/(?<!\.d)(\.js|\.ts)x?$/`: a source-code
extension with declaration files excluded. -/
def isJSFile (s : String) : Bool :=
  (strEndsWith s ".js" && !strEndsWith s ".d.js") ||
  (strEndsWith s ".ts" && !strEndsWith s ".d.ts") ||
  (strEndsWith s ".jsx" && !strEndsWith s ".d.jsx") ||
  (strEndsWith s ".tsx" && !strEndsWith s ".d.tsx")

/-- The meta-file pattern `/_meta(.js|.ts)x?$/` (unescaped dots: any
character may stand between `_meta` and the extension letters). -/
def isMetaFile (s : String) : Bool :=
  let t := if s.data.getLast? = some 'x' then s.data.dropLast else s.data
  ("js".data.isSuffixOf t || "ts".data.isSuffixOf t) &&
  "_meta".data.isSuffixOf (t.dropLast.dropLast.dropLast) &&
  decide (1 ≤ t.dropLast.dropLast.length)

/-- Command group metadata (`_meta` exports); only the description
matters to the modelled behavior. -/
structure CommandGroupMetadata where
  description : String
deriving DecidableEq, Repr

/-- The default export of a chat-command file: either a value passing the
`isChatCommand` capability check or anything else. -/
inductive ChatExport where
  | chatCommand (c : SlashCommand)
  | notACommand

/-- What a chat-command file yields when imported: its default export (if
any) and, when read as a `_meta` file, the metadata it passes the
`isCommandGroupMetadata` check with (`none` when the check fails). -/
structure ChatModule where
  defaultExport : Option ChatExport
  metaExport : Option CommandGroupMetadata

/-- A directory entry two levels below `chat/` (inside a subcommand
group); the source iterates these and silently ignores non-files. -/
inductive ChatEntryL2 where
  | file (filename : String) (mod : ChatModule)
  | folder (dirname : String)

/-- A directory entry one level below `chat/`: a file or a subcommand
group directory. -/
inductive ChatEntryL1 where
  | file (filename : String) (mod : ChatModule)
  | folder (dirname : String) (entries : List ChatEntryL2)

/-- A top-level entry of the `chat/` directory. -/
inductive ChatEntryL0 where
  | file (filename : String) (mod : ChatModule)
  | folder (dirname : String) (entries : List ChatEntryL1)

/-- A wire-format command descriptor. Builder population
(`populateBuilder`, `@discordjs/builders`) is an out-of-scope UI-descriptor
concern per the spec; only the name and description survive in the model. -/
structure Wire where
  name : String
  description : String
deriving DecidableEq, Repr

/-- `populateBuilder` reduced to the modelled wire fields. -/
def populateBuilder (info : ChatCommandOptions) : Wire :=
  ⟨info.name, info.description⟩

/-- The entry loop of `loadSubFolderLevelTwo`, threading the command map
and the group metadata accumulated so far. -/
def loadSubFolderLevelTwoGo (name parentName : String) :
    MapList SlashCommand → List ChatEntryL2 → CommandGroupMetadata →
    Except String (MapList SlashCommand × Wire)
  | cmap, [], metaData => .ok (cmap, ⟨name, metaData.description⟩)
  | cmap, .folder _ :: rest, metaData =>
    loadSubFolderLevelTwoGo name parentName cmap rest metaData
  | cmap, .file filename mod :: rest, metaData =>
    if isMetaFile filename then
      loadSubFolderLevelTwoGo name parentName cmap rest
        (mod.metaExport.getD metaData)
    else if isJSFile filename then
      match mod.defaultExport with
      | none => .error ("Expected a default export in file " ++ filename ++
          " but didn't find one")
      | some .notACommand => .error ("Expected the default export in file "
          ++ filename ++ " to be a SlashCommand")
      | some (.chatCommand command) =>
        if mapHas cmap
            (parentName ++ "." ++ name ++ "." ++ command.commandInfo.name)
        then
          .error ("Duplicate command name " ++
            (parentName ++ "." ++ name ++ "." ++ command.commandInfo.name))
        else
          loadSubFolderLevelTwoGo name parentName
            (mapSet cmap
              (parentName ++ "." ++ name ++ "." ++ command.commandInfo.name)
              command)
            rest metaData
    else loadSubFolderLevelTwoGo name parentName cmap rest metaData

/-- `loadSubFolderLevelTwo(path, name, parentName)`: files matching the
meta pattern update the group metadata; other source files must default-
export a chat command, are keyed as `parent.group.leaf` with a duplicate
check, and non-files are ignored. Returns the updated command map and the
subcommand-group wire descriptor. -/
def loadSubFolderLevelTwo (cmap : MapList SlashCommand)
    (entries : List ChatEntryL2) (name parentName : String) :
    Except String (MapList SlashCommand × Wire) :=
  loadSubFolderLevelTwoGo name parentName cmap entries
    ⟨"Default description"⟩

/-- The entry loop of `loadSubFolderLevelOne`. -/
def loadSubFolderLevelOneGo (name : String) :
    MapList SlashCommand → List ChatEntryL1 → CommandGroupMetadata →
    Except String (MapList SlashCommand × Wire)
  | cmap, [], metaData => .ok (cmap, ⟨name, metaData.description⟩)
  | cmap, .folder dirname sub :: rest, metaData =>
    match loadSubFolderLevelTwo cmap sub dirname name with
    | .error e => .error e
    | .ok (cmap1, _groupWire) =>
      loadSubFolderLevelOneGo name cmap1 rest metaData
  | cmap, .file filename mod :: rest, metaData =>
    if isMetaFile filename then
      loadSubFolderLevelOneGo name cmap rest (mod.metaExport.getD metaData)
    else if isJSFile filename then
      match mod.defaultExport with
      | none => .error ("Expected a default export in file " ++ filename ++
          " but didn't find one")
      | some .notACommand => .error ("Expected the default export in file "
          ++ filename ++ " to be a SlashCommand")
      | some (.chatCommand command) =>
        if mapHas cmap (name ++ "." ++ command.commandInfo.name) then
          .error ("Duplicate command name " ++
            (name ++ "." ++ command.commandInfo.name))
        else
          loadSubFolderLevelOneGo name
            (mapSet cmap (name ++ "." ++ command.commandInfo.name) command)
            rest metaData
    else loadSubFolderLevelOneGo name cmap rest metaData

/-- `loadSubFolderLevelOne(path, name)`: like level two, but a directory
entry recurses into `loadSubFolderLevelTwo` and leaf commands are keyed
as `parent.leaf`. -/
def loadSubFolderLevelOne (cmap : MapList SlashCommand)
    (entries : List ChatEntryL1) (name : String) :
    Except String (MapList SlashCommand × Wire) :=
  loadSubFolderLevelOneGo name cmap entries ⟨"Default description"⟩

/-- `loadTopLevelCommands(path)`: each source file at the top of `chat/`
is a zero-argument command registered under its plain name with a
duplicate check; each directory becomes a grouped command via
`loadSubFolderLevelOne`. Returns the updated command map and the wire
descriptors in traversal order. -/
def loadTopLevelCommands (cmap : MapList SlashCommand)
    (entries : List ChatEntryL0) :
    Except String (MapList SlashCommand × List Wire) :=
  match entries with
  | [] => .ok (cmap, [])
  | .folder dirname sub :: rest =>
    match loadSubFolderLevelOne cmap sub dirname with
    | .error e => .error e
    | .ok (cmap1, wire) =>
      match loadTopLevelCommands cmap1 rest with
      | .error e => .error e
      | .ok (cmap2, wires) => .ok (cmap2, wire :: wires)
  | .file filename mod :: rest =>
    if isJSFile filename then
      match mod.defaultExport with
      | none => .error ("Expected a default export in file " ++ filename ++
          " but didn't find one")
      | some .notACommand => .error ("Expected the default export in file " ++
          filename ++ " to be a SlashCommand")
      | some (.chatCommand command) =>
        if mapHas cmap command.commandInfo.name then
          .error ("Duplicate command name " ++ command.commandInfo.name)
        else
          match loadTopLevelCommands
              (mapSet cmap command.commandInfo.name command) rest with
          | .error e => .error e
          | .ok (cmap2, wires) =>
            .ok (cmap2, populateBuilder command.commandInfo :: wires)
    else
      match loadTopLevelCommands cmap rest with
      | .error e => .error e
      | .ok (cmap2, wires) => .ok (cmap2, wires)

/-- The default export of a context-menu command file: a value passing
the `isUserCommand` check, one passing the `isMessageCommand` check, or
anything else (`ContextMenuBase.ts` is not among the sources; the checks
are modelled from the spec's capability-check description). -/
inductive CtxExport where
  | userCmd (c : UserCommand)
  | messageCmd (c : MessageCommand)
  | notACommand
deriving DecidableEq, Repr

/-- A directory entry of the `user/` or `message/` folder. -/
inductive CtxEntry where
  | file (filename : String) (defaultExport : Option CtxExport)
  | folder (dirname : String)
deriving DecidableEq, Repr

/-- `loadUserCommands(path)`: every entry must be a file (a folder is a
fatal "context menu commands cannot have subcommands" error); source
files must default-export a `UserCommand`, which is registered with
`Map.set` — note there is no duplicate check here. -/
def loadUserCommands (umap : MapList UserCommand)
    (entries : List CtxEntry) : Except String (MapList UserCommand × List Wire) :=
  match entries with
  | [] => .ok (umap, [])
  | .folder dirname :: _ =>
    .error ("Found folder at " ++ dirname ++
      ", context menu commands cannot have subcommands")
  | .file filename defaultExport :: rest =>
    if isJSFile filename then
      match defaultExport with
      | none => .error ("Expected a default export in file " ++ filename ++
          " but didn't find one")
      | some (.userCmd command) =>
        match loadUserCommands (mapSet umap command.name command) rest with
        | .error e => .error e
        | .ok (umap2, wires) => .ok (umap2, ⟨command.name, ""⟩ :: wires)
      | some _ => .error ("Expected the default export in file " ++ filename ++
          " to be a UserCommand")
    else
      match loadUserCommands umap rest with
      | .error e => .error e
      | .ok (umap2, wires) => .ok (umap2, wires)

/-- `loadMessageCommands(path)`: identical to `loadUserCommands` but for
the message-context registry; again a plain `Map.set` with no duplicate
check. -/
def loadMessageCommands (mmap : MapList MessageCommand)
    (entries : List CtxEntry) :
    Except String (MapList MessageCommand × List Wire) :=
  match entries with
  | [] => .ok (mmap, [])
  | .folder dirname :: _ =>
    .error ("Found folder at " ++ dirname ++
      ", context menu commands cannot have subcommands")
  | .file filename defaultExport :: rest =>
    if isJSFile filename then
      match defaultExport with
      | none => .error ("Expected a default export in file " ++ filename ++
          " but didn't find one")
      | some (.messageCmd command) =>
        match loadMessageCommands (mapSet mmap command.name command) rest with
        | .error e => .error e
        | .ok (mmap2, wires) => .ok (mmap2, ⟨command.name, ""⟩ :: wires)
      | some _ => .error ("Expected the default export in file " ++ filename ++
          " to be a MessageCommand")
    else
      match loadMessageCommands mmap rest with
      | .error e => .error e
      | .ok (mmap2, wires) => .ok (mmap2, wires)

/-- The root command directory handed to `registerCommandsFrom`: the
recognized `chat` / `message` / `user` subfolders (absent when the
directory does not contain them). -/
structure CommandDir where
  chat : Option (List ChatEntryL0)
  message : Option (List CtxEntry)
  user : Option (List CtxEntry)

/-- The externally visible action of registration: the bulk REST call
with the wire descriptors. -/
inductive RegAction where
  | restPut (wires : List Wire)
deriving DecidableEq, Repr

/-- `registerCommandsFrom(folderPath, register, token)`: load each
recognized subfolder in turn, accumulating wire descriptors, then (only
when `register` is set and a token is supplied) issue the bulk
registration call. A load error aborts before the call is made. -/
def registerCommandsFrom (st : ClientState) (dir : CommandDir)
    (register : Bool) (token : Option String) :
    Except String (ClientState × List RegAction) :=
  match loadTopLevelCommands st.commandMap (dir.chat.getD []) with
  | .error e => .error e
  | .ok (cmap, chatWires) =>
    match loadMessageCommands st.messageContextMenuMap (dir.message.getD []) with
    | .error e => .error e
    | .ok (mmap, messageWires) =>
      match loadUserCommands st.userContextMenuMap (dir.user.getD []) with
      | .error e => .error e
      | .ok (umap, userWires) =>
        let st1 : ClientState :=
          { st with
            commandMap := cmap
            messageContextMenuMap := mmap
            userContextMenuMap := umap }
        let wires := chatWires ++ messageWires ++ userWires
        .ok (st1, if register && token.isSome then [.restPut wires] else [])

/-- A value after the conditional transformer application: transformed
when a transformer is registered for the name, unchanged otherwise. -/
def transformApply (tmap : MapList Transformer) (name : String) (v : DVal) :
    DVal :=
  match mapGet tmap name with
  | some t => t v
  | none => v

/-- The rejection message a single option contributes to the errors
array: the string a validator returns, or the message of a thrown
`ValidationError`; `none` for a passing, absent, unvalidated or
autocomplete-pass option. -/
def rejectMsg (vmap : MapList Validator) (i : Interaction) (skip : Bool)
    (opt : OptionDescr) : Option String :=
  match getDataForType i opt.type opt.name
      (if skip then false else opt.required) with
  | .ok (some v) =>
    match mapGet vmap opt.name, i.kind with
    | some f, .command =>
      match f i v with
      | .retStr s => some s
      | .throwValidation m => some m
      | _ => none
    | _, _ => none
  | _ => none

/-- The error (if any) on which processing a single option aborts the
whole pass: a failed required fetch, or a validator throwing something
other than a `ValidationError`. -/
def optThrows (vmap : MapList Validator) (i : Interaction) (skip : Bool)
    (opt : OptionDescr) : Option String :=
  match getDataForType i opt.type opt.name
      (if skip then false else opt.required) with
  | .error e => some e
  | .ok none => none
  | .ok (some v) =>
    match mapGet vmap opt.name, i.kind with
    | some f, .command =>
      match f i v with
      | .throwOther e => some e
      | _ => none
    | _, _ => none

/-- The entry an option receives in the returned values object on an
error-free pass: `none` (JS `null`) when absent, the possibly-transformed
extracted value when present. -/
def expectedVal (tmap : MapList Transformer) (i : Interaction) (skip : Bool)
    (opt : OptionDescr) : Option DVal :=
  match getDataForType i opt.type opt.name
      (if skip then false else opt.required) with
  | .ok (some v) => some (transformApply tmap opt.name v)
  | _ => none

/-- Substring test on char lists, used to state that an error message
names a function. -/
def listContainsSub (sub : List Char) : List Char → Bool
  | [] => sub.isEmpty
  | c :: rest => sub.isPrefixOf (c :: rest) || listContainsSub sub rest

/-- Whether `sub` occurs as a substring of `s`. -/
def strContains (s sub : String) : Bool :=
  listContainsSub sub.data s.data

/-- Example validator rejecting its option with the message "err1". -/
def exRejectingValidator : Validator := fun _ _ => .retStr "err1"

/-- Example option carrying the rejecting validator. -/
def exRejectedOption : OptionDescr :=
  ⟨"o1", .string, false, some exRejectingValidator, none⟩

/-- Example command whose single option always fails validation. -/
def exRejectedCommand : SlashCommand :=
  mkSlashCommand ⟨"t", "example", [exRejectedOption]⟩
    ⟨some (fun _ _ => []), none⟩

/-- Example client with `exRejectedCommand` registered under "t". -/
def exRejectedClient : ClientState :=
  { mkClient ⟨none, none⟩ with commandMap := [("t", exRejectedCommand)] }

/-- Example submission interaction supplying "o1". -/
def exRejectedInteraction : Interaction := ⟨.command, [("o1", .str "x")]⟩

/-- Example validator throwing a `ValidationError` with message "bad". -/
def exThrowingValidator : Validator := fun _ _ => .throwValidation "bad"

/-- Example transformer rewriting any value to the string "changed". -/
def exMarkingTransformer : Transformer := fun _ => .str "changed"

/-- Example option with both the throwing validator and a transformer. -/
def exThrowTransformOption : OptionDescr :=
  ⟨"o4", .string, false, some exThrowingValidator, some exMarkingTransformer⟩

/-- Example command around `exThrowTransformOption`. -/
def exThrowTransformCommand : SlashCommand :=
  mkSlashCommand ⟨"c4", "example", [exThrowTransformOption]⟩
    ⟨some (fun _ _ => []), none⟩

/-- Example submission interaction supplying "o4". -/
def exThrowTransformInteraction : Interaction := ⟨.command, [("o4", .str "x")]⟩

/-- Example command with three options of which the first and third have
rejecting validators. -/
def exThreeOptionCommand : SlashCommand :=
  mkSlashCommand
    ⟨"three", "example",
      [⟨"a", .string, false, some (fun _ _ => .retStr "bad a"), none⟩,
       ⟨"b", .string, false, none, none⟩,
       ⟨"c", .string, false, some (fun _ _ => .retStr "bad c"), none⟩]⟩
    ⟨some (fun _ _ => []), none⟩

/-- Example submission supplying all three options of
`exThreeOptionCommand`. -/
def exThreeOptionInteraction : Interaction :=
  ⟨.command, [("a", .str "1"), ("b", .str "2"), ("c", .str "3")]⟩

/-- Example validator throwing a non-validation error. -/
def exOtherThrowingValidator : Validator := fun _ _ => .throwOther "boom"

/-- Example command with two options: "p" is present and transformed,
"q" is absent and optional. -/
def exTwoOptionCommand : SlashCommand :=
  mkSlashCommand
    ⟨"two", "example",
      [⟨"p", .string, false, none, some (fun _ => .str "tp")⟩,
       ⟨"q", .integer, false, none, none⟩]⟩
    ⟨some (fun _ _ => []), none⟩

/-- Example submission supplying only "p". -/
def exTwoOptionInteraction : Interaction := ⟨.command, [("p", .str "raw")]⟩

/-- Example command constructed with a handlers object that lacks `run`
(expressible at the JS level, though the TS type requires `run`). -/
def exNoRunCommand : SlashCommand :=
  mkSlashCommand ⟨"c8", "example", []⟩ ⟨none, none⟩

/-- Example client with `exNoRunCommand` registered under "c8". -/
def exNoRunClient : ClientState :=
  { mkClient ⟨none, none⟩ with commandMap := [("c8", exNoRunCommand)] }

/-- Example submission interaction with no options. -/
def exEmptyInteraction : Interaction := ⟨.command, []⟩

/-- Example autocomplete interaction supplying "a". -/
def exAutocompleteInteraction : Interaction :=
  ⟨.autocomplete, [("a", .str "1")]⟩

/-- Example user-context command named "dup", first version. -/
def exUserDupFirst : UserCommand := ⟨"dup", 1⟩

/-- Example user-context command named "dup", second version. -/
def exUserDupSecond : UserCommand := ⟨"dup", 2⟩

/-- Example `user/` directory holding two files whose default exports
carry the same command name. -/
def exUserDupEntries : List CtxEntry :=
  [.file "a.ts" (some (.userCmd exUserDupFirst)),
   .file "b.ts" (some (.userCmd exUserDupSecond))]

/-- Example message-context command named "dup", first version. -/
def exMessageDupFirst : MessageCommand := ⟨"dup", 1⟩

/-- Example message-context command named "dup", second version. -/
def exMessageDupSecond : MessageCommand := ⟨"dup", 2⟩

/-- Example `message/` directory with two same-named commands. -/
def exMessageDupEntries : List CtxEntry :=
  [.file "a.ts" (some (.messageCmd exMessageDupFirst)),
   .file "b.ts" (some (.messageCmd exMessageDupSecond))]

/-- Example chat command named "dup" with no options. -/
def exChatDupCommand : SlashCommand :=
  mkSlashCommand ⟨"dup", "example", []⟩ ⟨some (fun _ _ => []), none⟩

/-- Example `chat/` directory with two files resolving to the same
top-level command name. -/
def exChatDupEntries : List ChatEntryL0 :=
  [.file "a.ts" ⟨some (.chatCommand exChatDupCommand), none⟩,
   .file "b.ts" ⟨some (.chatCommand exChatDupCommand), none⟩]

theorem mapGet_mapSet_self {α : Type} (m : MapList α) (k : String) (v : α) :
    mapGet (mapSet m k v) k = some v := by
  induction m with
  | nil => simp [mapSet, mapGet]
  | cons hd tl ih =>
    obtain ⟨k', v'⟩ := hd
    by_cases h : k' = k <;> simp [mapSet, mapGet, h, ih]

theorem mapGet_mapSet_ne {α : Type} (m : MapList α) {k n : String} (v : α)
    (h : k ≠ n) : mapGet (mapSet m k v) n = mapGet m n := by
  induction m with
  | nil => simp [mapSet, mapGet, h]
  | cons hd tl ih =>
    obtain ⟨k', v'⟩ := hd
    by_cases h' : k' = k
    · subst h'
      simp [mapSet, mapGet, h]
    · simp [mapSet, mapGet, h', ih]

theorem mapHas_mapSet_mono {α : Type} (m : MapList α) (k n : String) (v : α)
    (h : mapHas m n = true) : mapHas (mapSet m k v) n = true := by
  by_cases hk : k = n
  · subst hk
    simp [mapHas, mapGet_mapSet_self]
  · simpa [mapHas, mapGet_mapSet_ne m v hk] using h

theorem mapHas_mapSet_self {α : Type} (m : MapList α) (k : String) (v : α) :
    mapHas (mapSet m k v) k = true := by
  simp [mapHas, mapGet_mapSet_self]

theorem assignValue_errors (tmap : MapList Transformer) (st : LoopState)
    (name : String) (v : DVal) :
    (assignValue tmap st name v).errors = st.errors := by
  unfold assignValue
  cases mapGet tmap name <;> rfl

theorem assignValue_values (tmap : MapList Transformer) (st : LoopState)
    (name : String) (v : DVal) :
    (assignValue tmap st name v).values =
      mapSet st.values name (some (transformApply tmap name v)) := by
  unfold assignValue transformApply
  cases mapGet tmap name <;> rfl

theorem assignValue_trace (tmap : MapList Transformer) (st : LoopState)
    (name : String) (v : DVal) :
    ∃ t, (assignValue tmap st name v).trace = st.trace ++ t ∧
      t.all (fun e => !e.isValidatorCall) = true := by
  unfold assignValue
  cases mapGet tmap name with
  | none => exact ⟨[], by simp⟩
  | some t => exact ⟨[.transformerCall name], by simp [VEvent.isValidatorCall]⟩

theorem processOption_errors (vmap : MapList Validator)
    (tmap : MapList Transformer) (i : Interaction) (skip : Bool)
    (st : LoopState) (opt : OptionDescr) :
    (processOption vmap tmap i skip st opt).1.errors =
      st.errors ++ (rejectMsg vmap i skip opt).toList := by
  unfold processOption rejectMsg
  cases hx : getDataForType i opt.type opt.name
      (if skip then false else opt.required) with
  | error e => simp
  | ok ov =>
    cases ov with
    | none => simp
    | some v =>
      cases hv : mapGet vmap opt.name with
      | none => cases i.kind <;> simp [assignValue_errors]
      | some f =>
        cases hk : i.kind with
        | autocomplete => simp [assignValue_errors]
        | command => cases hfv : f i v <;> simp [hfv, assignValue_errors]

theorem processOption_snd (vmap : MapList Validator)
    (tmap : MapList Transformer) (i : Interaction) (skip : Bool)
    (st : LoopState) (opt : OptionDescr) :
    (processOption vmap tmap i skip st opt).2 = optThrows vmap i skip opt := by
  unfold processOption optThrows
  cases hx : getDataForType i opt.type opt.name
      (if skip then false else opt.required) with
  | error e => simp
  | ok ov =>
    cases ov with
    | none => simp
    | some v =>
      cases hv : mapGet vmap opt.name with
      | none => cases i.kind <;> simp
      | some f =>
        cases hk : i.kind with
        | autocomplete => simp
        | command => cases hfv : f i v <;> simp [hfv]

theorem processOption_values_ne (vmap : MapList Validator)
    (tmap : MapList Transformer) (i : Interaction) (skip : Bool)
    (st : LoopState) (opt : OptionDescr) {n : String} (h : opt.name ≠ n) :
    mapGet (processOption vmap tmap i skip st opt).1.values n =
      mapGet st.values n := by
  unfold processOption
  cases hx : getDataForType i opt.type opt.name
      (if skip then false else opt.required) with
  | error e => simp
  | ok ov =>
    cases ov with
    | none => simp [mapGet_mapSet_ne _ _ h]
    | some v =>
      cases hv : mapGet vmap opt.name with
      | none =>
        cases i.kind <;>
          simp [assignValue_values, mapGet_mapSet_ne _ _ h]
      | some f =>
        cases hk : i.kind with
        | autocomplete => simp [assignValue_values, mapGet_mapSet_ne _ _ h]
        | command =>
          cases hfv : f i v <;>
            simp [hfv, assignValue_values, mapGet_mapSet_ne _ _ h]

theorem processOption_trace_autocomplete (vmap : MapList Validator)
    (tmap : MapList Transformer) (i : Interaction) (skip : Bool)
    (st : LoopState) (opt : OptionDescr) (h : i.kind = .autocomplete) :
    ∃ t, (processOption vmap tmap i skip st opt).1.trace = st.trace ++ t ∧
      t.all (fun e => !e.isValidatorCall) = true := by
  unfold processOption
  cases hx : getDataForType i opt.type opt.name
      (if skip then false else opt.required) with
  | error e => exact ⟨[], by simp⟩
  | ok ov =>
    cases ov with
    | none => exact ⟨[], by simp⟩
    | some v =>
      cases hv : mapGet vmap opt.name with
      | none => simpa using assignValue_trace tmap st opt.name v
      | some f => rw [h]; simpa using assignValue_trace tmap st opt.name v

theorem vtoLoop_errors_prefix (vmap : MapList Validator)
    (tmap : MapList Transformer) (i : Interaction) (skip : Bool) :
    ∀ (opts : List OptionDescr) (st : LoopState),
    ∃ tail, (vtoLoop vmap tmap i skip opts st).1.errors = st.errors ++ tail := by
  intro opts
  induction opts with
  | nil => intro st; exact ⟨[], by simp [vtoLoop]⟩
  | cons opt rest ih =>
    intro st
    unfold vtoLoop
    rcases hp : processOption vmap tmap i skip st opt with ⟨st1, o⟩
    have herr : st1.errors = st.errors ++ (rejectMsg vmap i skip opt).toList := by
      have h := processOption_errors vmap tmap i skip st opt
      rw [hp] at h
      exact h
    cases o with
    | none =>
      obtain ⟨tail, htail⟩ := ih st1
      exact ⟨(rejectMsg vmap i skip opt).toList ++ tail, by
        simp [htail, herr, List.append_assoc]⟩
    | some e => exact ⟨(rejectMsg vmap i skip opt).toList, by simp [herr]⟩

theorem processOption_absent (vmap : MapList Validator)
    (tmap : MapList Transformer) (i : Interaction) (skip : Bool)
    (st : LoopState) (opt : OptionDescr)
    (hx : getDataForType i opt.type opt.name
      (if skip then false else opt.required) = .ok none) :
    processOption vmap tmap i skip st opt =
      (⟨st.errors, mapSet st.values opt.name none, st.trace⟩, none) := by
  unfold processOption
  rw [hx]

theorem processOption_unvalidated (vmap : MapList Validator)
    (tmap : MapList Transformer) (i : Interaction) (skip : Bool)
    (st : LoopState) (opt : OptionDescr) (v : DVal)
    (hx : getDataForType i opt.type opt.name
      (if skip then false else opt.required) = .ok (some v))
    (hv : mapGet vmap opt.name = none) :
    processOption vmap tmap i skip st opt =
      (assignValue tmap st opt.name v, none) := by
  unfold processOption
  rw [hx, hv]

theorem processOption_autocomplete_skips (vmap : MapList Validator)
    (tmap : MapList Transformer) (i : Interaction) (skip : Bool)
    (st : LoopState) (opt : OptionDescr) (v : DVal)
    (hx : getDataForType i opt.type opt.name
      (if skip then false else opt.required) = .ok (some v))
    (hk : i.kind = .autocomplete) :
    processOption vmap tmap i skip st opt =
      (assignValue tmap st opt.name v, none) := by
  unfold processOption
  rw [hx, hk]
  cases mapGet vmap opt.name <;> rfl

theorem processOption_retBool (vmap : MapList Validator)
    (tmap : MapList Transformer) (i : Interaction) (skip : Bool)
    (st : LoopState) (opt : OptionDescr) (v : DVal) (f : Validator) (b : Bool)
    (hx : getDataForType i opt.type opt.name
      (if skip then false else opt.required) = .ok (some v))
    (hv : mapGet vmap opt.name = some f)
    (hk : i.kind = .command)
    (hfv : f i v = .retBool b) :
    processOption vmap tmap i skip st opt =
      (assignValue tmap
        ⟨st.errors, st.values, st.trace ++ [.validatorCall opt.name]⟩
        opt.name v, none) := by
  unfold processOption
  rw [hx, hv, hk]
  simp only [hfv]

theorem processOption_retStr (vmap : MapList Validator)
    (tmap : MapList Transformer) (i : Interaction) (skip : Bool)
    (st : LoopState) (opt : OptionDescr) (v : DVal) (f : Validator) (s : String)
    (hx : getDataForType i opt.type opt.name
      (if skip then false else opt.required) = .ok (some v))
    (hv : mapGet vmap opt.name = some f)
    (hk : i.kind = .command)
    (hfv : f i v = .retStr s) :
    processOption vmap tmap i skip st opt =
      (⟨st.errors ++ [s], st.values,
        st.trace ++ [.validatorCall opt.name]⟩, none) := by
  unfold processOption
  rw [hx, hv, hk]
  simp only [hfv]

theorem processOption_throwValidation (vmap : MapList Validator)
    (tmap : MapList Transformer) (i : Interaction) (skip : Bool)
    (st : LoopState) (opt : OptionDescr) (v : DVal) (f : Validator) (m : String)
    (hx : getDataForType i opt.type opt.name
      (if skip then false else opt.required) = .ok (some v))
    (hv : mapGet vmap opt.name = some f)
    (hk : i.kind = .command)
    (hfv : f i v = .throwValidation m) :
    processOption vmap tmap i skip st opt =
      (assignValue tmap
        ⟨st.errors ++ [m], st.values, st.trace ++ [.validatorCall opt.name]⟩
        opt.name v, none) := by
  unfold processOption
  rw [hx, hv, hk]
  simp only [hfv]

theorem processOption_throwOther (vmap : MapList Validator)
    (tmap : MapList Transformer) (i : Interaction) (skip : Bool)
    (st : LoopState) (opt : OptionDescr) (v : DVal) (f : Validator) (e : String)
    (hx : getDataForType i opt.type opt.name
      (if skip then false else opt.required) = .ok (some v))
    (hv : mapGet vmap opt.name = some f)
    (hk : i.kind = .command)
    (hfv : f i v = .throwOther e) :
    processOption vmap tmap i skip st opt =
      (⟨st.errors, st.values, st.trace ++ [.validatorCall opt.name]⟩,
        some e) := by
  unfold processOption
  rw [hx, hv, hk]
  simp only [hfv]

theorem processOption_fetch_error (vmap : MapList Validator)
    (tmap : MapList Transformer) (i : Interaction) (skip : Bool)
    (st : LoopState) (opt : OptionDescr) (e : String)
    (hx : getDataForType i opt.type opt.name
      (if skip then false else opt.required) = .error e) :
    processOption vmap tmap i skip st opt = (st, some e) := by
  unfold processOption
  rw [hx]

theorem expectedVal_absent {tmap : MapList Transformer} {i : Interaction}
    {skip : Bool} {opt : OptionDescr}
    (hx : getDataForType i opt.type opt.name
      (if skip then false else opt.required) = .ok none) :
    expectedVal tmap i skip opt = none := by
  unfold expectedVal
  rw [hx]

theorem expectedVal_present {tmap : MapList Transformer} {i : Interaction}
    {skip : Bool} {opt : OptionDescr} (v : DVal)
    (hx : getDataForType i opt.type opt.name
      (if skip then false else opt.required) = .ok (some v)) :
    expectedVal tmap i skip opt = some (transformApply tmap opt.name v) := by
  unfold expectedVal
  rw [hx]

theorem vtoLoop_cons_none {vmap : MapList Validator}
    {tmap : MapList Transformer} {i : Interaction} {skip : Bool}
    {st st1 : LoopState} {opt : OptionDescr} (rest : List OptionDescr)
    (hp : processOption vmap tmap i skip st opt = (st1, none)) :
    vtoLoop vmap tmap i skip (opt :: rest) st =
      vtoLoop vmap tmap i skip rest st1 := by
  conv_lhs => unfold vtoLoop
  rw [hp]

theorem vtoLoop_cons_some {vmap : MapList Validator}
    {tmap : MapList Transformer} {i : Interaction} {skip : Bool}
    {st st1 : LoopState} {opt : OptionDescr} {e : String}
    (rest : List OptionDescr)
    (hp : processOption vmap tmap i skip st opt = (st1, some e)) :
    vtoLoop vmap tmap i skip (opt :: rest) st = (st1, some e) := by
  unfold vtoLoop
  rw [hp]

theorem vtoLoop_no_throw (vmap : MapList Validator)
    (tmap : MapList Transformer) (i : Interaction) (skip : Bool) :
    ∀ (opts : List OptionDescr) (st : LoopState),
    (∀ opt ∈ opts, optThrows vmap i skip opt = none) →
    (vtoLoop vmap tmap i skip opts st).2 = none ∧
    (vtoLoop vmap tmap i skip opts st).1.errors =
      st.errors ++ opts.filterMap (rejectMsg vmap i skip) := by
  intro opts
  induction opts with
  | nil => intro st _; simp [vtoLoop]
  | cons opt rest ih =>
    intro st h
    rcases hp : processOption vmap tmap i skip st opt with ⟨st1, o⟩
    have ho : o = none := by
      have hsnd : o = optThrows vmap i skip opt := by
        have h2 := processOption_snd vmap tmap i skip st opt
        rw [hp] at h2
        exact h2
      rw [hsnd]
      exact h opt (by simp)
    subst ho
    rw [vtoLoop_cons_none rest hp]
    have herr : st1.errors = st.errors ++ (rejectMsg vmap i skip opt).toList := by
      have h2 := processOption_errors vmap tmap i skip st opt
      rw [hp] at h2
      exact h2
    obtain ⟨h2a, h2b⟩ := ih st1 (fun o2 ho2 => h o2 (List.mem_cons_of_mem _ ho2))
    refine ⟨h2a, ?_⟩
    rw [h2b, herr]
    cases hr : rejectMsg vmap i skip opt <;>
      simp [List.filterMap_cons, hr, List.append_assoc]

theorem vtoLoop_values_not_mem (vmap : MapList Validator)
    (tmap : MapList Transformer) (i : Interaction) (skip : Bool) :
    ∀ (opts : List OptionDescr) (st : LoopState) {n : String},
    n ∉ opts.map OptionDescr.name →
    mapGet (vtoLoop vmap tmap i skip opts st).1.values n =
      mapGet st.values n := by
  intro opts
  induction opts with
  | nil => intro st n _; simp [vtoLoop]
  | cons opt rest ih =>
    intro st n hn
    simp only [List.map_cons, List.mem_cons, not_or] at hn
    obtain ⟨hn1, hn2⟩ := hn
    rcases hp : processOption vmap tmap i skip st opt with ⟨st1, o⟩
    have hval : mapGet st1.values n = mapGet st.values n := by
      have h2 := processOption_values_ne vmap tmap i skip st opt
        (fun he => hn1 he.symm)
      rw [hp] at h2
      exact h2
    cases o with
    | none =>
      rw [vtoLoop_cons_none rest hp, ih st1 hn2]
      exact hval
    | some e =>
      rw [vtoLoop_cons_some rest hp]
      exact hval

theorem vtoLoop_trace_autocomplete (vmap : MapList Validator)
    (tmap : MapList Transformer) (i : Interaction) (skip : Bool)
    (hk : i.kind = .autocomplete) :
    ∀ (opts : List OptionDescr) (st : LoopState),
    st.trace.all (fun e => !e.isValidatorCall) = true →
    ((vtoLoop vmap tmap i skip opts st).1.trace.all
      (fun e => !e.isValidatorCall)) = true := by
  intro opts
  induction opts with
  | nil => intro st h; simpa [vtoLoop] using h
  | cons opt rest ih =>
    intro st h
    rcases hp : processOption vmap tmap i skip st opt with ⟨st1, o⟩
    have htr : st1.trace.all (fun e => !e.isValidatorCall) = true := by
      obtain ⟨t, ht, hall⟩ :=
        processOption_trace_autocomplete vmap tmap i skip st opt hk
      rw [hp] at ht
      have ht1 : st1.trace = st.trace ++ t := ht
      simp only [ht1, List.all_append, Bool.and_eq_true]
      exact ⟨h, hall⟩
    cases o with
    | none =>
      rw [vtoLoop_cons_none rest hp]
      exact ih st1 htr
    | some e =>
      rw [vtoLoop_cons_some rest hp]
      exact htr

theorem processOption_ok_cases (vmap : MapList Validator)
    (tmap : MapList Transformer) (i : Interaction) (skip : Bool)
    (st st1 : LoopState) (opt : OptionDescr)
    (hp : processOption vmap tmap i skip st opt = (st1, none)) :
    mapGet st1.values opt.name = some (expectedVal tmap i skip opt) ∨
    st1.errors ≠ st.errors := by
  cases hx : getDataForType i opt.type opt.name
      (if skip then false else opt.required) with
  | error e =>
    rw [processOption_fetch_error vmap tmap i skip st opt e hx] at hp
    injection hp with h1 h2
    exact Option.noConfusion h2
  | ok ov =>
    cases ov with
    | none =>
      rw [processOption_absent vmap tmap i skip st opt hx] at hp
      injection hp with h1 h2
      left
      rw [← h1, expectedVal_absent hx]
      simp [mapGet_mapSet_self]
    | some v =>
      cases hv : mapGet vmap opt.name with
      | none =>
        rw [processOption_unvalidated vmap tmap i skip st opt v hx hv] at hp
        injection hp with h1 h2
        left
        rw [← h1, assignValue_values, expectedVal_present v hx]
        exact mapGet_mapSet_self _ _ _
      | some f =>
        cases hk : i.kind with
        | autocomplete =>
          rw [processOption_autocomplete_skips vmap tmap i skip st opt v hx hk]
            at hp
          injection hp with h1 h2
          left
          rw [← h1, assignValue_values, expectedVal_present v hx]
          exact mapGet_mapSet_self _ _ _
        | command =>
          cases hfv : f i v with
          | retBool b =>
            rw [processOption_retBool vmap tmap i skip st opt v f b hx hv hk
              hfv] at hp
            injection hp with h1 h2
            left
            rw [← h1, assignValue_values, expectedVal_present v hx]
            exact mapGet_mapSet_self _ _ _
          | retStr s =>
            rw [processOption_retStr vmap tmap i skip st opt v f s hx hv hk
              hfv] at hp
            injection hp with h1 h2
            right
            rw [← h1]
            intro hcontra
            have := congrArg List.length hcontra
            simp at this
          | throwValidation m =>
            rw [processOption_throwValidation vmap tmap i skip st opt v f m hx
              hv hk hfv] at hp
            injection hp with h1 h2
            left
            rw [← h1, assignValue_values, expectedVal_present v hx]
            exact mapGet_mapSet_self _ _ _
          | throwOther e =>
            rw [processOption_throwOther vmap tmap i skip st opt v f e hx hv hk
              hfv] at hp
            injection hp with h1 h2
            exact Option.noConfusion h2

theorem vtoLoop_ok_values (vmap : MapList Validator)
    (tmap : MapList Transformer) (i : Interaction) (skip : Bool) :
    ∀ (opts : List OptionDescr) (st stF : LoopState),
    vtoLoop vmap tmap i skip opts st = (stF, none) →
    stF.errors = [] →
    (opts.map OptionDescr.name).Nodup →
    ∀ opt ∈ opts,
      mapGet stF.values opt.name = some (expectedVal tmap i skip opt) := by
  intro opts
  induction opts with
  | nil => intro st stF _ _ _ opt h; simp at h
  | cons opt0 rest ih =>
    intro st stF hloop herr hnd opt hmem
    rw [List.map_cons, List.nodup_cons] at hnd
    obtain ⟨hnot, hnd2⟩ := hnd
    rcases hp : processOption vmap tmap i skip st opt0 with ⟨st1, o⟩
    cases o with
    | some e =>
      rw [vtoLoop_cons_some rest hp] at hloop
      injection hloop with h1 h2
      exact Option.noConfusion h2
    | none =>
      rw [vtoLoop_cons_none rest hp] at hloop
      rcases List.mem_cons.mp hmem with rfl | hmem2
      · have hpres : mapGet stF.values opt.name = mapGet st1.values opt.name := by
          have h2 := vtoLoop_values_not_mem vmap tmap i skip rest st1 hnot
          rw [hloop] at h2
          exact h2
        rw [hpres]
        rcases processOption_ok_cases vmap tmap i skip st st1 opt hp with
          hgood | hbad
        · exact hgood
        · exfalso
          obtain ⟨tail, htail⟩ := vtoLoop_errors_prefix vmap tmap i skip rest st1
          rw [hloop] at htail
          have h0 : st1.errors ++ tail = [] := by
            rw [← htail]
            exact herr
          have h1 : st1.errors = [] := (List.append_eq_nil.mp h0).1
          have h3 : st1.errors =
              st.errors ++ (rejectMsg vmap i skip opt).toList := by
            have h4 := processOption_errors vmap tmap i skip st opt
            rw [hp] at h4
            exact h4
          rw [h1] at h3
          have h5 : st.errors = [] := (List.append_eq_nil.mp h3.symm).1
          exact hbad (h1.trans h5.symm)
      · exact ih st1 stF hloop herr hnd2 opt hmem2

theorem validateAndTransformOptions_eq_thrown {cmd : SlashCommand}
    {i : Interaction} {skip : Bool} {st : LoopState} {e : String}
    (hl : vtoLoop cmd.validatorsMap cmd.transformersMap i skip
      cmd.commandInfo.options ⟨[], mapEmpty, []⟩ = (st, some e)) :
    validateAndTransformOptions cmd i skip = ⟨.error e, st.trace⟩ := by
  unfold validateAndTransformOptions
  rw [hl]

theorem validateAndTransformOptions_eq_errors {cmd : SlashCommand}
    {i : Interaction} {skip : Bool} {st : LoopState}
    (hl : vtoLoop cmd.validatorsMap cmd.transformersMap i skip
      cmd.commandInfo.options ⟨[], mapEmpty, []⟩ = (st, none))
    (hpos : st.errors.length > 0) :
    validateAndTransformOptions cmd i skip =
      ⟨.ok (.inl st.errors), st.trace⟩ := by
  unfold validateAndTransformOptions
  rw [hl]
  dsimp only
  rw [if_pos hpos]

theorem validateAndTransformOptions_eq_values {cmd : SlashCommand}
    {i : Interaction} {skip : Bool} {st : LoopState}
    (hl : vtoLoop cmd.validatorsMap cmd.transformersMap i skip
      cmd.commandInfo.options ⟨[], mapEmpty, []⟩ = (st, none))
    (hneg : ¬ st.errors.length > 0) :
    validateAndTransformOptions cmd i skip =
      ⟨.ok (.inr st.values), st.trace⟩ := by
  unfold validateAndTransformOptions
  rw [hl]
  dsimp only
  rw [if_neg hneg]

/-- C2: when validators reject options by returning strings, the messages
are collected without short-circuiting the remaining options, and whenever
any errors were collected the pass returns exactly the rejection messages
of all options, in option-declaration order (`List.filterMap` over the
declared options). Hypotheses: no option aborts the pass by throwing, and
at least one rejection occurred. -/
theorem validation_errors_accumulate_in_order (cmd : SlashCommand)
    (i : Interaction) (skip : Bool)
    (hna : ∀ opt ∈ cmd.commandInfo.options,
      optThrows cmd.validatorsMap i skip opt = none)
    (hne : cmd.commandInfo.options.filterMap
      (rejectMsg cmd.validatorsMap i skip) ≠ []) :
    (validateAndTransformOptions cmd i skip).res =
      .ok (.inl (cmd.commandInfo.options.filterMap
        (rejectMsg cmd.validatorsMap i skip))) := by
  rcases hl : vtoLoop cmd.validatorsMap cmd.transformersMap i skip
      cmd.commandInfo.options ⟨[], mapEmpty, []⟩ with ⟨st, o⟩
  obtain ⟨h1, h2⟩ := vtoLoop_no_throw cmd.validatorsMap cmd.transformersMap i
    skip cmd.commandInfo.options ⟨[], mapEmpty, []⟩ hna
  rw [hl] at h1 h2
  have ho : o = none := h1
  subst ho
  have herr : st.errors = cmd.commandInfo.options.filterMap
      (rejectMsg cmd.validatorsMap i skip) := by
    have h3 : st.errors = [] ++ cmd.commandInfo.options.filterMap
        (rejectMsg cmd.validatorsMap i skip) := h2
    simpa using h3
  have hlen : st.errors.length > 0 := by
    rw [herr]
    exact List.length_pos.mpr hne
  rw [validateAndTransformOptions_eq_errors hl hlen, herr]

/-- C5: an option whose extracted raw value is absent (the typed getter
returned `null`) is assigned `null` in the values record, contributes no
error entry, and has neither its validator nor its transformer invoked
(errors and the invocation trace are returned unchanged); the loop
continues with the next option. -/
theorem absent_option_assigned_null (vmap : MapList Validator)
    (tmap : MapList Transformer) (i : Interaction) (skip : Bool)
    (st : LoopState) (opt : OptionDescr)
    (hx : getDataForType i opt.type opt.name
      (if skip then false else opt.required) = .ok none) :
    processOption vmap tmap i skip st opt =
      (⟨st.errors, mapSet st.values opt.name none, st.trace⟩, none) :=
  processOption_absent vmap tmap i skip st opt hx

/-- C6: a validator throwing a recognized `ValidationError` has its
message collected into the error list (and the pass continues), while a
validator throwing any other error aborts the iteration with that error
uncollected, and such a thrown error propagates out of
`validateAndTransformOptions` as a thrown error rather than a
user-facing validation message. -/
theorem validation_error_collected_other_throw_propagates
    (vmap : MapList Validator) (tmap : MapList Transformer) (i : Interaction)
    (skip : Bool) (st : LoopState) (opt : OptionDescr)
    (rest : List OptionDescr) (f : Validator) (v : DVal)
    (hv : mapGet vmap opt.name = some f)
    (hk : i.kind = .command)
    (hx : getDataForType i opt.type opt.name
      (if skip then false else opt.required) = .ok (some v)) :
    (∀ m stF o, f i v = .throwValidation m →
      vtoLoop vmap tmap i skip (opt :: rest) st = (stF, o) →
      ∃ tail, stF.errors = st.errors ++ m :: tail)
    ∧ (∀ e, f i v = .throwOther e →
      vtoLoop vmap tmap i skip (opt :: rest) st =
        (⟨st.errors, st.values, st.trace ++ [.validatorCall opt.name]⟩, some e))
    ∧ (∀ (cmd : SlashCommand) (stF : LoopState) (e : String),
      vtoLoop cmd.validatorsMap cmd.transformersMap i skip
        cmd.commandInfo.options ⟨[], mapEmpty, []⟩ = (stF, some e) →
      validateAndTransformOptions cmd i skip = ⟨.error e, stF.trace⟩) := by
  refine ⟨?_, ?_, ?_⟩
  · intro m stF o hfv hloop
    rw [vtoLoop_cons_none rest
      (processOption_throwValidation vmap tmap i skip st opt v f m hx hv hk
        hfv)] at hloop
    obtain ⟨tail, htail⟩ := vtoLoop_errors_prefix vmap tmap i skip rest
      (assignValue tmap
        ⟨st.errors ++ [m], st.values, st.trace ++ [.validatorCall opt.name]⟩
        opt.name v)
    rw [hloop] at htail
    refine ⟨tail, ?_⟩
    have hstF : stF.errors = (assignValue tmap
        ⟨st.errors ++ [m], st.values, st.trace ++ [.validatorCall opt.name]⟩
        opt.name v).errors ++ tail := htail
    rw [assignValue_errors] at hstF
    simpa [List.append_assoc] using hstF
  · intro e hfv
    exact vtoLoop_cons_some rest
      (processOption_throwOther vmap tmap i skip st opt v f e hx hv hk hfv)
  · intro cmd stF e hl
    exact validateAndTransformOptions_eq_thrown hl

/-- C7: on an autocomplete pass (the interaction is an autocomplete
interaction rather than a command interaction), no validator is ever
invoked for any option: the invocation trace of
`validateAndTransformOptions` contains no validator-call event. -/
theorem validators_skipped_for_autocomplete (cmd : SlashCommand)
    (i : Interaction) (skip : Bool) (hk : i.kind = .autocomplete) :
    (validateAndTransformOptions cmd i skip).trace.all
      (fun e => !e.isValidatorCall) = true := by
  rcases hl : vtoLoop cmd.validatorsMap cmd.transformersMap i skip
      cmd.commandInfo.options ⟨[], mapEmpty, []⟩ with ⟨st, o⟩
  have htr := vtoLoop_trace_autocomplete cmd.validatorsMap
    cmd.transformersMap i skip hk cmd.commandInfo.options ⟨[], mapEmpty, []⟩
    (by simp)
  rw [hl] at htr
  have hst : st.trace.all (fun e => !e.isValidatorCall) = true := htr
  cases o with
  | some e => rw [validateAndTransformOptions_eq_thrown hl]; exact hst
  | none =>
    by_cases hc : st.errors.length > 0
    · rw [validateAndTransformOptions_eq_errors hl hc]
      exact hst
    · rw [validateAndTransformOptions_eq_values hl hc]
      exact hst

/-- C10: whenever `validateAndTransformOptions` returns a values object
(no errors were collected), that object contains an entry for every
declared option: `null` for an absent option, the possibly-transformed
extracted value for a present one (assuming the declared option names are
distinct, as the platform requires). -/
theorem values_object_contains_every_declared_option (cmd : SlashCommand)
    (i : Interaction) (skip : Bool) (vals : MapList (Option DVal))
    (hnd : (cmd.commandInfo.options.map OptionDescr.name).Nodup)
    (h : (validateAndTransformOptions cmd i skip).res = .ok (.inr vals)) :
    ∀ opt ∈ cmd.commandInfo.options,
      mapGet vals opt.name =
        some (expectedVal cmd.transformersMap i skip opt) := by
  rcases hl : vtoLoop cmd.validatorsMap cmd.transformersMap i skip
      cmd.commandInfo.options ⟨[], mapEmpty, []⟩ with ⟨st, o⟩
  cases o with
  | some e =>
    rw [validateAndTransformOptions_eq_thrown hl] at h
    simp at h
  | none =>
    by_cases hc : st.errors.length > 0
    · rw [validateAndTransformOptions_eq_errors hl hc] at h
      simp at h
    · rw [validateAndTransformOptions_eq_values hl hc] at h
      have hv : st.values = vals := by simpa using h
      have herr0 : st.errors = [] := by
        rw [Nat.not_lt, Nat.le_zero] at hc
        exact List.eq_nil_of_length_eq_zero hc
      intro opt hmem
      rw [← hv]
      exact vtoLoop_ok_values cmd.validatorsMap cmd.transformersMap i skip
        cmd.commandInfo.options ⟨[], mapEmpty, []⟩ st hl herr0 hnd opt hmem

/-- C4 counterexample: for an option whose validator rejects it by
throwing a `ValidationError`, the transformer IS applied (the invocation
trace shows the transformer call right after the validator call), even
though the pass then returns the collected error; this falsifies the
claim that a rejection by thrown `ValidationError` prevents the
transformer from being applied. -/
theorem thrown_validation_error_still_transforms :
    (validateAndTransformOptions exThrowTransformCommand
      exThrowTransformInteraction false).trace =
      [.validatorCall "o4", .transformerCall "o4"]
    ∧ (validateAndTransformOptions exThrowTransformCommand
      exThrowTransformInteraction false).res = .ok (.inl ["bad"]) :=
  ⟨rfl, rfl⟩

/-- C4 amended: a validator rejecting by returning a string prevents the
transformer from running and the value from being stored; but an option
whose validator throws a `ValidationError` still has its transformer
applied and its transformed value stored (the source never clears
`isValid` in that catch branch), exactly as when validation passes. -/
theorem transformer_gating_by_validator_outcome (vmap : MapList Validator)
    (tmap : MapList Transformer) (i : Interaction) (skip : Bool)
    (st : LoopState) (opt : OptionDescr) (f : Validator) (v : DVal)
    (hv : mapGet vmap opt.name = some f)
    (hk : i.kind = .command)
    (hx : getDataForType i opt.type opt.name
      (if skip then false else opt.required) = .ok (some v)) :
    (∀ s, f i v = .retStr s →
      processOption vmap tmap i skip st opt =
        (⟨st.errors ++ [s], st.values,
          st.trace ++ [.validatorCall opt.name]⟩, none))
    ∧ (∀ m t, f i v = .throwValidation m → mapGet tmap opt.name = some t →
      processOption vmap tmap i skip st opt =
        (⟨st.errors ++ [m], mapSet st.values opt.name (some (t v)),
          st.trace ++ [.validatorCall opt.name, .transformerCall opt.name]⟩,
          none))
    ∧ (∀ b t, f i v = .retBool b → mapGet tmap opt.name = some t →
      processOption vmap tmap i skip st opt =
        (⟨st.errors, mapSet st.values opt.name (some (t v)),
          st.trace ++ [.validatorCall opt.name, .transformerCall opt.name]⟩,
          none)) := by
  refine ⟨?_, ?_, ?_⟩
  · intro s hfv
    exact processOption_retStr vmap tmap i skip st opt v f s hx hv hk hfv
  · intro m t hfv ht
    rw [processOption_throwValidation vmap tmap i skip st opt v f m hx hv hk
      hfv]
    unfold assignValue
    rw [ht]
    simp [List.append_assoc]
  · intro b t hfv ht
    rw [processOption_retBool vmap tmap i skip st opt v f b hx hv hk hfv]
    unfold assignValue
    rw [ht]
    simp [List.append_assoc]

/-- C1 counterexample: on the validation-error path `handleCommand` ends
with a bare `return;`, so its returned value is `undefined` (`none` in
the model), not a boolean, falsifying "handleCommand returns a boolean"
for every dispatch; the ephemeral reply itself is sent as claimed. -/
theorem handleCommand_error_path_returns_undefined :
    handleCommand exRejectedClient "t" exRejectedInteraction =
      (.ok none, [.reply "err1" true])
    ∧ (Except.ok (none : Option Bool) : Except String (Option Bool)) ≠
      .ok (some false)
    ∧ (Except.ok (none : Option Bool) : Except String (Option Bool)) ≠
      .ok (some true) :=
  ⟨rfl, by simp, by simp⟩

/-- C1 amended: `handleCommand` returns `false` when no command is
registered under the dotted name; when validation collects errors it
sends exactly one ephemeral reply containing all the error messages
joined by newlines and returns `undefined` (not a boolean) without
invoking the run handler; otherwise it executes the run handler through
the chat middleware pipeline and returns `true`. -/
theorem handleCommand_dispatch_contract (client : ClientState)
    (name : String) (i : Interaction) :
    (mapGet client.commandMap name = none →
      handleCommand client name i = (.ok (some false), []))
    ∧ (∀ cmd errs tr, mapGet client.commandMap name = some cmd →
      validateAndTransformOptions cmd i true = ⟨.ok (.inl errs), tr⟩ →
      handleCommand client name i =
        (.ok none, [.reply (String.intercalate "\n" errs) true]))
    ∧ (∀ cmd vals tr f, mapGet client.commandMap name = some cmd →
      validateAndTransformOptions cmd i true = ⟨.ok (.inr vals), tr⟩ →
      cmd.run = some f →
      handleCommand client name i =
        (.ok (some true),
          pipelineExecute client.chatCommandMiddleware f i vals)) := by
  refine ⟨?_, ?_, ?_⟩
  · intro h
    unfold handleCommand
    rw [h]
  · intro cmd errs tr h hvt
    unfold handleCommand
    rw [h]
    dsimp only
    rw [hvt]
  · intro cmd vals tr f h hvt hrun
    unfold handleCommand
    rw [h]
    dsimp only
    rw [hvt]
    dsimp only
    rw [hrun]

/-- C8: the claim (and the spec) promise a usable "not implemented yet"
default run handler, and the class body does define one, but the
constructor unconditionally executes `this.run = handlers.run`, so a
command actually constructed without a `run` handler carries `undefined`
and dispatching it throws a TypeError instead of producing the default
ephemeral reply. The default autocomplete handler, guarded by
`'autocomplete' in handlers`, does survive construction and responds
with exactly one placeholder choice. -/
theorem missing_run_handler_crashes_not_default_reply :
    handleCommand exNoRunClient "c8" exEmptyInteraction =
      (.error "TypeError: command.run is not a function", [])
    ∧ SlashCommand.defaultRun exEmptyInteraction mapEmpty =
      [.reply "This command is not implemented yet" true]
    ∧ exNoRunCommand.autocomplete exEmptyInteraction "f" (.str "v") mapEmpty =
      [.respond [("This interaction isn't implemented yet", "error")]]
    ∧ exNoRunCommand.run = none :=
  ⟨rfl, rfl, rfl, rfl⟩

/-- C9: when the client options supply no `storePageState` /
`getPageState` implementation, both installed page-persistence functions
throw (never silently no-op or return a default), and the error message
names both missing functions. -/
theorem missing_page_persistence_throws (opts : ClientOptions)
    (h1 : opts.storePageState = none) (h2 : opts.getPageState = none) :
    (∀ a b c d, (mkClient opts).storePageState a b c d =
      .error missingPagePersistenceMsg)
    ∧ (∀ m, (mkClient opts).getPageState m =
      .error missingPagePersistenceMsg)
    ∧ strContains missingPagePersistenceMsg "storePageState" = true
    ∧ strContains missingPagePersistenceMsg "getPageState" = true := by
  refine ⟨?_, ?_, by decide, by decide⟩
  · intro a b c d
    show (opts.storePageState.getD defaultPageStore) a b c d = _
    rw [h1]
    rfl
  · intro m
    show (opts.getPageState.getD defaultPageGet) m = _
    rw [h2]
    rfl


theorem loadL2_nil (name parentName : String)
    (cmap : MapList SlashCommand) (meta : CommandGroupMetadata) :
    loadSubFolderLevelTwoGo name parentName cmap [] meta =
      .ok (cmap, ⟨name, meta.description⟩) := rfl

theorem loadL2_folder (name parentName dirname : String)
    (cmap : MapList SlashCommand) (rest : List ChatEntryL2)
    (meta : CommandGroupMetadata) :
    loadSubFolderLevelTwoGo name parentName cmap (.folder dirname :: rest)
      meta = loadSubFolderLevelTwoGo name parentName cmap rest meta := rfl

theorem loadL2_file (name parentName filename : String) (mod : ChatModule)
    (cmap : MapList SlashCommand) (rest : List ChatEntryL2)
    (meta : CommandGroupMetadata) :
    loadSubFolderLevelTwoGo name parentName cmap (.file filename mod :: rest)
      meta =
    (if isMetaFile filename then
      loadSubFolderLevelTwoGo name parentName cmap rest
        (mod.metaExport.getD meta)
    else if isJSFile filename then
      match mod.defaultExport with
      | none => .error ("Expected a default export in file " ++ filename ++
          " but didn't find one")
      | some .notACommand => .error ("Expected the default export in file "
          ++ filename ++ " to be a SlashCommand")
      | some (.chatCommand command) =>
        if mapHas cmap
            (parentName ++ "." ++ name ++ "." ++ command.commandInfo.name)
        then
          .error ("Duplicate command name " ++
            (parentName ++ "." ++ name ++ "." ++ command.commandInfo.name))
        else
          loadSubFolderLevelTwoGo name parentName
            (mapSet cmap
              (parentName ++ "." ++ name ++ "." ++ command.commandInfo.name)
              command)
            rest meta
    else loadSubFolderLevelTwoGo name parentName cmap rest meta) := rfl

theorem loadL1_nil (name : String) (cmap : MapList SlashCommand)
    (meta : CommandGroupMetadata) :
    loadSubFolderLevelOneGo name cmap [] meta =
      .ok (cmap, ⟨name, meta.description⟩) := rfl

theorem loadL1_folder (name dirname : String) (sub : List ChatEntryL2)
    (cmap : MapList SlashCommand) (rest : List ChatEntryL1)
    (meta : CommandGroupMetadata) :
    loadSubFolderLevelOneGo name cmap (.folder dirname sub :: rest) meta =
    (match loadSubFolderLevelTwo cmap sub dirname name with
     | .error e => .error e
     | .ok (cmap1, _groupWire) =>
       loadSubFolderLevelOneGo name cmap1 rest meta) := rfl

theorem loadL1_file (name filename : String) (mod : ChatModule)
    (cmap : MapList SlashCommand) (rest : List ChatEntryL1)
    (meta : CommandGroupMetadata) :
    loadSubFolderLevelOneGo name cmap (.file filename mod :: rest) meta =
    (if isMetaFile filename then
      loadSubFolderLevelOneGo name cmap rest (mod.metaExport.getD meta)
    else if isJSFile filename then
      match mod.defaultExport with
      | none => .error ("Expected a default export in file " ++ filename ++
          " but didn't find one")
      | some .notACommand => .error ("Expected the default export in file "
          ++ filename ++ " to be a SlashCommand")
      | some (.chatCommand command) =>
        if mapHas cmap (name ++ "." ++ command.commandInfo.name) then
          .error ("Duplicate command name " ++
            (name ++ "." ++ command.commandInfo.name))
        else
          loadSubFolderLevelOneGo name
            (mapSet cmap (name ++ "." ++ command.commandInfo.name) command)
            rest meta
    else loadSubFolderLevelOneGo name cmap rest meta) := rfl

theorem loadL0_nil (cmap : MapList SlashCommand) :
    loadTopLevelCommands cmap [] = .ok (cmap, []) := rfl

theorem loadL0_folder (dirname : String) (sub : List ChatEntryL1)
    (cmap : MapList SlashCommand) (rest : List ChatEntryL0) :
    loadTopLevelCommands cmap (.folder dirname sub :: rest) =
    (match loadSubFolderLevelOne cmap sub dirname with
     | .error e => .error e
     | .ok (cmap1, wire) =>
       match loadTopLevelCommands cmap1 rest with
       | .error e => .error e
       | .ok (cmap2, wires) => .ok (cmap2, wire :: wires)) := rfl

theorem loadL0_file (filename : String) (mod : ChatModule)
    (cmap : MapList SlashCommand) (rest : List ChatEntryL0) :
    loadTopLevelCommands cmap (.file filename mod :: rest) =
    (if isJSFile filename then
      match mod.defaultExport with
      | none => .error ("Expected a default export in file " ++ filename ++
          " but didn't find one")
      | some .notACommand => .error ("Expected the default export in file " ++
          filename ++ " to be a SlashCommand")
      | some (.chatCommand command) =>
        if mapHas cmap command.commandInfo.name then
          .error ("Duplicate command name " ++ command.commandInfo.name)
        else
          match loadTopLevelCommands
              (mapSet cmap command.commandInfo.name command) rest with
          | .error e => .error e
          | .ok (cmap2, wires) =>
            .ok (cmap2, populateBuilder command.commandInfo :: wires)
    else
      match loadTopLevelCommands cmap rest with
      | .error e => .error e
      | .ok (cmap2, wires) => .ok (cmap2, wires)) := rfl

theorem loadSubFolderLevelTwoGo_mono (name parentName : String) :
    ∀ (entries : List ChatEntryL2) (cmap : MapList SlashCommand)
      (meta : CommandGroupMetadata) (cmap2 : MapList SlashCommand) (w : Wire)
      (n : String),
    loadSubFolderLevelTwoGo name parentName cmap entries meta =
      .ok (cmap2, w) →
    mapHas cmap n = true → mapHas cmap2 n = true := by
  intro entries
  induction entries with
  | nil =>
    intro cmap meta cmap2 w n h hn
    rw [loadL2_nil] at h
    injection h with h1
    injection h1 with h2 h3
    rw [← h2]
    exact hn
  | cons entry rest ih =>
    intro cmap meta cmap2 w n h hn
    cases entry with
    | folder dirname =>
      rw [loadL2_folder] at h
      exact ih _ _ _ _ _ h hn
    | file filename mod =>
      rw [loadL2_file] at h
      by_cases hmeta : isMetaFile filename = true
      · rw [if_pos hmeta] at h
        exact ih _ _ _ _ _ h hn
      · rw [if_neg hmeta] at h
        by_cases hjs : isJSFile filename = true
        · rw [if_pos hjs] at h
          cases hex : mod.defaultExport with
          | none =>
            simp only [hex] at h
            exact Except.noConfusion h
          | some ex =>
            cases ex with
            | notACommand =>
              simp only [hex] at h
              exact Except.noConfusion h
            | chatCommand command =>
              simp only [hex] at h
              by_cases hdup : mapHas cmap
                  (parentName ++ "." ++ name ++ "." ++
                    command.commandInfo.name) = true
              · rw [if_pos hdup] at h
                simp at h
              · rw [if_neg hdup] at h
                exact ih _ _ _ _ _ h (mapHas_mapSet_mono _ _ _ _ hn)
        · rw [if_neg hjs] at h
          exact ih _ _ _ _ _ h hn

theorem loadSubFolderLevelTwo_mono (cmap : MapList SlashCommand)
    (entries : List ChatEntryL2) (name parentName : String)
    (cmap2 : MapList SlashCommand) (w : Wire) (n : String)
    (h : loadSubFolderLevelTwo cmap entries name parentName = .ok (cmap2, w))
    (hn : mapHas cmap n = true) : mapHas cmap2 n = true :=
  loadSubFolderLevelTwoGo_mono name parentName entries cmap _ cmap2 w n h hn

theorem loadSubFolderLevelOneGo_mono (name : String) :
    ∀ (entries : List ChatEntryL1) (cmap : MapList SlashCommand)
      (meta : CommandGroupMetadata) (cmap2 : MapList SlashCommand) (w : Wire)
      (n : String),
    loadSubFolderLevelOneGo name cmap entries meta = .ok (cmap2, w) →
    mapHas cmap n = true → mapHas cmap2 n = true := by
  intro entries
  induction entries with
  | nil =>
    intro cmap meta cmap2 w n h hn
    rw [loadL1_nil] at h
    injection h with h1
    injection h1 with h2 h3
    rw [← h2]
    exact hn
  | cons entry rest ih =>
    intro cmap meta cmap2 w n h hn
    cases entry with
    | folder dirname sub =>
      rw [loadL1_folder] at h
      rcases hsub : loadSubFolderLevelTwo cmap sub dirname name with e |
        ⟨cmap1, w1⟩
      · simp only [hsub] at h
        exact Except.noConfusion h
      · simp only [hsub] at h
        exact ih _ _ _ _ _ h
          (loadSubFolderLevelTwo_mono cmap sub dirname name cmap1 w1 n hsub hn)
    | file filename mod =>
      rw [loadL1_file] at h
      by_cases hmeta : isMetaFile filename = true
      · rw [if_pos hmeta] at h
        exact ih _ _ _ _ _ h hn
      · rw [if_neg hmeta] at h
        by_cases hjs : isJSFile filename = true
        · rw [if_pos hjs] at h
          cases hex : mod.defaultExport with
          | none =>
            simp only [hex] at h
            exact Except.noConfusion h
          | some ex =>
            cases ex with
            | notACommand =>
              simp only [hex] at h
              exact Except.noConfusion h
            | chatCommand command =>
              simp only [hex] at h
              by_cases hdup : mapHas cmap
                  (name ++ "." ++ command.commandInfo.name) = true
              · rw [if_pos hdup] at h
                simp at h
              · rw [if_neg hdup] at h
                exact ih _ _ _ _ _ h (mapHas_mapSet_mono _ _ _ _ hn)
        · rw [if_neg hjs] at h
          exact ih _ _ _ _ _ h hn

theorem loadSubFolderLevelOne_mono (cmap : MapList SlashCommand)
    (entries : List ChatEntryL1) (name : String)
    (cmap2 : MapList SlashCommand) (w : Wire) (n : String)
    (h : loadSubFolderLevelOne cmap entries name = .ok (cmap2, w))
    (hn : mapHas cmap n = true) : mapHas cmap2 n = true :=
  loadSubFolderLevelOneGo_mono name entries cmap _ cmap2 w n h hn

theorem loadTopLevelCommands_mono :
    ∀ (entries : List ChatEntryL0) (cmap cmap2 : MapList SlashCommand)
      (ws : List Wire) (n : String),
    loadTopLevelCommands cmap entries = .ok (cmap2, ws) →
    mapHas cmap n = true → mapHas cmap2 n = true := by
  intro entries
  induction entries with
  | nil =>
    intro cmap cmap2 ws n h hn
    rw [loadL0_nil] at h
    injection h with h1
    injection h1 with h2 h3
    rw [← h2]
    exact hn
  | cons entry rest ih =>
    intro cmap cmap2 ws n h hn
    cases entry with
    | folder dirname sub =>
      rw [loadL0_folder] at h
      rcases hsub : loadSubFolderLevelOne cmap sub dirname with e | ⟨cmap1, w1⟩
      · simp only [hsub] at h
        exact Except.noConfusion h
      · simp only [hsub] at h
        rcases hrec : loadTopLevelCommands cmap1 rest with e | ⟨cmapR, wsR⟩
        · simp only [hrec] at h
          exact Except.noConfusion h
        · simp only [hrec] at h
          injection h with h1
          injection h1 with h2 h3
          rw [← h2]
          exact ih cmap1 cmapR wsR n hrec
            (loadSubFolderLevelOne_mono cmap sub dirname cmap1 w1 n hsub hn)
    | file filename mod =>
      rw [loadL0_file] at h
      by_cases hjs : isJSFile filename = true
      · rw [if_pos hjs] at h
        cases hex : mod.defaultExport with
        | none =>
          simp only [hex] at h
          exact Except.noConfusion h
        | some ex =>
          cases ex with
          | notACommand =>
            simp only [hex] at h
            exact Except.noConfusion h
          | chatCommand command =>
            simp only [hex] at h
            by_cases hdup : mapHas cmap command.commandInfo.name = true
            · rw [if_pos hdup] at h
              exact Except.noConfusion h
            · rw [if_neg hdup] at h
              rcases hrec : loadTopLevelCommands
                  (mapSet cmap command.commandInfo.name command) rest with
                e | ⟨cmapR, wsR⟩
              · simp only [hrec] at h
                exact Except.noConfusion h
              · simp only [hrec] at h
                injection h with h1
                injection h1 with h2 h3
                rw [← h2]
                exact ih _ cmapR wsR n hrec (mapHas_mapSet_mono _ _ _ _ hn)
      · rw [if_neg hjs] at h
        rcases hrec : loadTopLevelCommands cmap rest with e | ⟨cmapR, wsR⟩
        · simp only [hrec] at h
          exact Except.noConfusion h
        · simp only [hrec] at h
          injection h with h1
          injection h1 with h2 h3
          rw [← h2]
          exact ih cmap cmapR wsR n hrec hn

theorem loadTopLevelCommands_hits_dup (f2 : String) (m2 : ChatModule)
    (c2 : SlashCommand) (post : List ChatEntryL0)
    (hjs : isJSFile f2 = true)
    (hex : m2.defaultExport = some (.chatCommand c2)) :
    ∀ (mid : List ChatEntryL0) (cmap : MapList SlashCommand),
    mapHas cmap c2.commandInfo.name = true →
    ∃ e, loadTopLevelCommands cmap (mid ++ .file f2 m2 :: post) =
      .error e := by
  intro mid
  induction mid with
  | nil =>
    intro cmap hdup
    refine ⟨"Duplicate command name " ++ c2.commandInfo.name, ?_⟩
    rw [List.nil_append, loadL0_file, if_pos hjs]
    simp only [hex]
    rw [if_pos hdup]
  | cons entry mid2 ih =>
    intro cmap hdup
    rw [List.cons_append]
    cases entry with
    | folder dirname sub =>
      rw [loadL0_folder]
      rcases hsub : loadSubFolderLevelOne cmap sub dirname with e | ⟨cmap1, w1⟩
      · exact ⟨e, by simp only [hsub]⟩
      · obtain ⟨e, he⟩ := ih cmap1
          (loadSubFolderLevelOne_mono cmap sub dirname cmap1 w1 _ hsub hdup)
        exact ⟨e, by simp only [hsub, he]⟩
    | file filename mod =>
      rw [loadL0_file]
      by_cases hjs1 : isJSFile filename = true
      · rw [if_pos hjs1]
        cases hex1 : mod.defaultExport with
        | none => exact ⟨_, rfl⟩
        | some ex =>
          cases ex with
          | notACommand => exact ⟨_, rfl⟩
          | chatCommand command =>
            by_cases hdup1 : mapHas cmap command.commandInfo.name = true
            · exact ⟨_, by dsimp only; rw [if_pos hdup1]⟩
            · obtain ⟨e, he⟩ := ih
                (mapSet cmap command.commandInfo.name command)
                (mapHas_mapSet_mono _ _ _ _ hdup)
              exact ⟨e, by dsimp only; rw [if_neg hdup1]; simp only [he]⟩
      · rw [if_neg hjs1]
        obtain ⟨e, he⟩ := ih cmap hdup
        exact ⟨e, by simp only [he]⟩

theorem loadTopLevelCommands_dup_aborts (f1 f2 : String)
    (m1 m2 : ChatModule) (c1 c2 : SlashCommand)
    (mid post : List ChatEntryL0)
    (hjs1 : isJSFile f1 = true) (hjs2 : isJSFile f2 = true)
    (hex1 : m1.defaultExport = some (.chatCommand c1))
    (hex2 : m2.defaultExport = some (.chatCommand c2))
    (hname : c1.commandInfo.name = c2.commandInfo.name) :
    ∀ (pre : List ChatEntryL0) (cmap : MapList SlashCommand),
    ∃ e, loadTopLevelCommands cmap
      (pre ++ .file f1 m1 :: mid ++ .file f2 m2 :: post) = .error e := by
  intro pre
  induction pre with
  | nil =>
    intro cmap
    rw [List.nil_append, List.cons_append]
    rw [loadL0_file, if_pos hjs1]
    by_cases hd : mapHas cmap c1.commandInfo.name = true
    · exact ⟨_, by simp only [hex1]; rw [if_pos hd]⟩
    · obtain ⟨e, he⟩ := loadTopLevelCommands_hits_dup f2 m2 c2 post hjs2 hex2
        mid (mapSet cmap c1.commandInfo.name c1)
        (by rw [← hname]; exact mapHas_mapSet_self _ _ _)
      exact ⟨e, by simp only [hex1]; rw [if_neg hd]; simp only [he]⟩
  | cons entry pre2 ih =>
    intro cmap
    simp only [List.cons_append]
    cases entry with
    | folder dirname sub =>
      rw [loadL0_folder]
      rcases hsub : loadSubFolderLevelOne cmap sub dirname with e | ⟨cmap1, w1⟩
      · exact ⟨e, rfl⟩
      · obtain ⟨e, he⟩ := ih cmap1
        exact ⟨e, by dsimp only; rw [he]⟩
    | file filename mod =>
      rw [loadL0_file]
      by_cases hjsf : isJSFile filename = true
      · rw [if_pos hjsf]
        cases hexf : mod.defaultExport with
        | none => exact ⟨_, rfl⟩
        | some ex =>
          cases ex with
          | notACommand => exact ⟨_, rfl⟩
          | chatCommand command =>
            by_cases hdupf : mapHas cmap command.commandInfo.name = true
            · exact ⟨_, by dsimp only; rw [if_pos hdupf]⟩
            · obtain ⟨e, he⟩ := ih
                (mapSet cmap command.commandInfo.name command)
              exact ⟨e, by dsimp only; rw [if_neg hdupf, he]⟩
      · rw [if_neg hjsf]
        obtain ⟨e, he⟩ := ih cmap
        exact ⟨e, by rw [he]⟩

theorem registerCommandsFrom_chat_error (st : ClientState)
    (entries : List ChatEntryL0) (dm du : Option (List CtxEntry))
    (register : Bool) (token : Option String) (e : String)
    (h : loadTopLevelCommands st.commandMap entries = .error e) :
    registerCommandsFrom st ⟨some entries, dm, du⟩ register token =
      .error e := by
  unfold registerCommandsFrom
  simp only [Option.getD_some]
  rw [h]

/-- C3 counterexample: loading two user-context command files whose
default exports carry the same name succeeds (no error) and silently
replaces the first registration with the second — the user/message
context-menu loaders have no duplicate check, falsifying the claim that
duplicate insertion is a fatal load-time error for every registry. -/
theorem user_registry_silent_overwrite :
    loadUserCommands mapEmpty exUserDupEntries =
      .ok ([("dup", exUserDupSecond)], [⟨"dup", ""⟩, ⟨"dup", ""⟩])
    ∧ mapGet ([("dup", exUserDupSecond)] : MapList UserCommand) "dup" =
      some exUserDupSecond
    ∧ exUserDupSecond ≠ exUserDupFirst :=
  ⟨rfl, rfl, by decide⟩

/-- C3 amended: duplicate names are a fatal load-time error for the
chat-command registry only — two chat-command files resolving to the
same name anywhere in the traversal abort `loadTopLevelCommands` (and
hence `registerCommandsFrom`, before any registration call) with an
error; the user-context and message-context registries perform no
duplicate check and silently overwrite (last registration wins). -/
theorem duplicate_name_policy_by_registry (f1 f2 : String)
    (m1 m2 : ChatModule) (c1 c2 : SlashCommand)
    (pre mid post : List ChatEntryL0)
    (hjs1 : isJSFile f1 = true) (hjs2 : isJSFile f2 = true)
    (hex1 : m1.defaultExport = some (.chatCommand c1))
    (hex2 : m2.defaultExport = some (.chatCommand c2))
    (hname : c1.commandInfo.name = c2.commandInfo.name) :
    (∀ cmap, ∃ e, loadTopLevelCommands cmap
      (pre ++ .file f1 m1 :: mid ++ .file f2 m2 :: post) = .error e)
    ∧ (∀ (st : ClientState) (dm du : Option (List CtxEntry))
        (register : Bool) (token : Option String),
      ∃ e, registerCommandsFrom st
        ⟨some (pre ++ .file f1 m1 :: mid ++ .file f2 m2 :: post), dm, du⟩
        register token = .error e)
    ∧ loadUserCommands mapEmpty exUserDupEntries =
      .ok ([("dup", exUserDupSecond)], [⟨"dup", ""⟩, ⟨"dup", ""⟩])
    ∧ loadMessageCommands mapEmpty exMessageDupEntries =
      .ok ([("dup", exMessageDupSecond)], [⟨"dup", ""⟩, ⟨"dup", ""⟩]) := by
  refine ⟨loadTopLevelCommands_dup_aborts f1 f2 m1 m2 c1 c2 mid post hjs1
    hjs2 hex1 hex2 hname pre, ?_, rfl, rfl⟩
  intro st dm du register token
  obtain ⟨e, he⟩ := loadTopLevelCommands_dup_aborts f1 f2 m1 m2 c1 c2 mid
    post hjs1 hjs2 hex1 hex2 hname pre st.commandMap
  exact ⟨e, registerCommandsFrom_chat_error st _ dm du register token e he⟩

/-- Witness: the amended duplicate policy applied to a concrete chat
directory with two files both exporting the command "dup". -/
theorem duplicate_name_policy_by_registry_witness :
    ∃ e, loadTopLevelCommands mapEmpty exChatDupEntries = .error e :=
  (duplicate_name_policy_by_registry "a.ts" "b.ts"
    ⟨some (.chatCommand exChatDupCommand), none⟩
    ⟨some (.chatCommand exChatDupCommand), none⟩
    exChatDupCommand exChatDupCommand [] [] []
    (by decide) (by decide) rfl rfl rfl).1 mapEmpty

/-- Witness: the dispatch contract applied to a client with no commands
(the unknown-name branch) and to the rejected-option example (the
validation-error branch). -/
theorem handleCommand_dispatch_contract_witness :
    handleCommand (mkClient ⟨none, none⟩) "absent" exEmptyInteraction =
      (.ok (some false), [])
    ∧ handleCommand exRejectedClient "t" exRejectedInteraction =
      (.ok none, [.reply "err1" true]) :=
  ⟨(handleCommand_dispatch_contract (mkClient ⟨none, none⟩) "absent"
      exEmptyInteraction).1 rfl,
   (handleCommand_dispatch_contract exRejectedClient "t"
      exRejectedInteraction).2.1 exRejectedCommand ["err1"]
      [.validatorCall "o1"] rfl rfl⟩

/-- Witness: three options, two rejecting validators, exactly the two
messages in declaration order. -/
theorem validation_errors_accumulate_in_order_witness :
    (validateAndTransformOptions exThreeOptionCommand
      exThreeOptionInteraction false).res = .ok (.inl ["bad a", "bad c"]) :=
  validation_errors_accumulate_in_order exThreeOptionCommand
    exThreeOptionInteraction false (by decide) (by decide)

/-- Witness: the transformer-gating rule at the concrete
`ValidationError`-throwing option — the transformer runs and its output
is stored while the message sits in the error list. -/
theorem transformer_gating_by_validator_outcome_witness :
    processOption exThrowTransformCommand.validatorsMap
      exThrowTransformCommand.transformersMap exThrowTransformInteraction
      false ⟨[], mapEmpty, []⟩ exThrowTransformOption =
      (⟨["bad"], [("o4", some (.str "changed"))],
        [.validatorCall "o4", .transformerCall "o4"]⟩, none) :=
  (transformer_gating_by_validator_outcome
    exThrowTransformCommand.validatorsMap
    exThrowTransformCommand.transformersMap exThrowTransformInteraction
    false ⟨[], mapEmpty, []⟩ exThrowTransformOption exThrowingValidator
    (.str "x") rfl rfl rfl).2.1 "bad" exMarkingTransformer rfl rfl

/-- Witness: an absent optional option is stored as `null` with nothing
else touched. -/
theorem absent_option_assigned_null_witness :
    processOption mapEmpty mapEmpty exEmptyInteraction false
      ⟨[], mapEmpty, []⟩ ⟨"w", .string, false, none, none⟩ =
      (⟨[], [("w", none)], []⟩, none) :=
  absent_option_assigned_null mapEmpty mapEmpty exEmptyInteraction false
    ⟨[], mapEmpty, []⟩ ⟨"w", .string, false, none, none⟩ rfl

/-- Witness: a validator throwing a non-validation error aborts the loop
with that error and no collected message. -/
theorem validation_error_collected_other_throw_propagates_witness :
    vtoLoop [("o1", exOtherThrowingValidator)] mapEmpty
      exRejectedInteraction false [⟨"o1", .string, false, none, none⟩]
      ⟨[], mapEmpty, []⟩ =
      (⟨[], mapEmpty, [.validatorCall "o1"]⟩, some "boom") :=
  (validation_error_collected_other_throw_propagates
    [("o1", exOtherThrowingValidator)] mapEmpty exRejectedInteraction false
    ⟨[], mapEmpty, []⟩ ⟨"o1", .string, false, none, none⟩ []
    exOtherThrowingValidator (.str "x") rfl rfl rfl).2.1 "boom" rfl

/-- Witness: an autocomplete pass over the three-option command invokes
no validator. -/
theorem validators_skipped_for_autocomplete_witness :
    (validateAndTransformOptions exThreeOptionCommand
      exAutocompleteInteraction false).trace.all
      (fun e => !e.isValidatorCall) = true :=
  validators_skipped_for_autocomplete exThreeOptionCommand
    exAutocompleteInteraction false rfl

/-- Witness: a client constructed without persistence functions throws
from both page-persistence entry points. -/
theorem missing_page_persistence_throws_witness :
    (mkClient ⟨none, none⟩).storePageState "m" "p" "s" "d" =
      .error missingPagePersistenceMsg
    ∧ (mkClient ⟨none, none⟩).getPageState "m" =
      .error missingPagePersistenceMsg :=
  ⟨(missing_page_persistence_throws ⟨none, none⟩ rfl rfl).1 "m" "p" "s" "d",
   (missing_page_persistence_throws ⟨none, none⟩ rfl rfl).2.1 "m"⟩

/-- Witness: the values object of the two-option command holds the
transformed present value under "p". -/
theorem values_object_contains_every_declared_option_witness :
    mapGet ([("p", some (DVal.str "tp")), ("q", none)] :
      MapList (Option DVal)) "p" = some (some (.str "tp")) :=
  values_object_contains_every_declared_option exTwoOptionCommand
    exTwoOptionInteraction false
    [("p", some (.str "tp")), ("q", none)] (by decide) rfl
    ⟨"p", .string, false, none, some (fun _ => .str "tp")⟩
    (List.Mem.head _)
